import Mathlib

/-!
Verification of the orthogonal wire-routing and interactive geometry engine
of the frc-wiring-utility repository.

The TypeScript sources are shallowly embedded over the rationals:
JavaScript numbers become `ℚ` (so every arithmetic fact below is about
exact arithmetic; the only places the source relies on float behaviour are
the explicit `1e-6` tolerance comparisons, which are kept verbatim as
`1/1000000`).  `Number.isFinite` tests are dropped because every rational
is finite.  Optional values (`null` / missing callbacks / unresolved
ports) become `Option`.

Embedded sources:
* `src/helpers/wires.ts` — `snapToGrid`, `defaultRoute` is unused by the
  claims, `orthogonalizeRoute`, `generateRouteWithBends`.
* the canvas wires core (`polyPointsForConn`, `ensureRoutePersisted`,
  `pickSegment`, `moveSegment`, `setBendCount`, `addBend`, `removeBend`)
  from `SchematicCanvas.tsx` / its extracted module.
* the coordinate transform and wheel-zoom handler from
  `SchematicCanvas.tsx` / `SchematicCanvas/coords.ts`, with the
  transcendental `Math.exp(-deltaY * 0.0015)` abstracted as a rational
  `factor` parameter ranging over the positive rationals (the image of
  `exp`); everything downstream of `exp` is ordinary field arithmetic.
-/

/-- A 2D world- or screen-space point, `{ x: number; y: number }` in
`src/helpers/wires.ts`. -/
structure Pt where
  x : ℚ
  y : ℚ
deriving DecidableEq, Repr, Inhabited

/-- `type RouteMode = "H" | "V"`.  The same two-valued string type is used
for the axis of a dragged segment, so it doubles as the axis type. -/
inductive RouteMode where
  | H
  | V
deriving DecidableEq, Repr, Inhabited

/-- `snapToGrid` from `src/helpers/wires.ts`: identity for a degenerate
(`≤ 0`) grid, otherwise `Math.round(v / grid) * grid`.  Mathlib's `round`
is `⌊x + 1/2⌋`, which agrees with JavaScript's `Math.round` (half-way
values round up).  The `Number.isFinite(grid)` guard is vacuous over `ℚ`. -/
def snapToGrid (v grid : ℚ) : ℚ :=
  if grid ≤ 0 then v else (round (v / grid) : ℚ) * grid

/-- Snap both coordinates of a point (the `.map` bodies applying
`snapToGrid` coordinatewise in the sources). -/
def snapPt (grid : ℚ) (p : Pt) : Pt :=
  ⟨snapToGrid p.x grid, snapToGrid p.y grid⟩

/-- The per-index axis parity used throughout `wires.ts`:
`mode === "H" ? i % 2 === 0 : i % 2 === 1`. -/
def wantH (mode : RouteMode) (i : ℕ) : Bool :=
  match mode with
  | .H => i % 2 = 0
  | .V => i % 2 = 1

/-- The `for` loop of `orthogonalizeRoute`: walk the bends carrying `prev`
(initially `a`) and the running index; a bend whose segment from `prev`
wants to be horizontal gets `y := prev.y`, otherwise `x := prev.x`. -/
def orthoLoop (mode : RouteMode) : Pt → ℕ → List Pt → List Pt
  | _, _, [] => []
  | prev, i, p :: rest =>
    let p' := if wantH mode i then { p with y := prev.y } else { p with x := prev.x }
    p' :: orthoLoop mode p' (i + 1) rest

/-- The tail adjustment of `orthogonalizeRoute`: overwrite the last bend's
`y` with `b.y` when the trailing segment wants to be horizontal, else its
`x` with `b.x`.  No-op on the empty list (`pts.length > 0` guard). -/
def adjustLast (b : Pt) (lastSegWantH : Bool) : List Pt → List Pt
  | [] => []
  | [p] => [if lastSegWantH then { p with y := b.y } else { p with x := b.x }]
  | p :: q :: rest => p :: adjustLast b lastSegWantH (q :: rest)

/-- `orthogonalizeRoute` from `src/helpers/wires.ts`: the loop above
followed by the trailing-segment fix, whose wanted axis is computed from
the *input* length (`pts.length` equals `bends.length`). -/
def orthogonalizeRoute (a b : Pt) (bends : List Pt) (mode : RouteMode) : List Pt :=
  adjustLast b (wantH mode bends.length) (orthoLoop mode a 0 bends)

/-- The `aligned` test of `generateRouteWithBends`:
`Math.abs(a.x - b.x) < 1e-6 || Math.abs(a.y - b.y) < 1e-6`. -/
def alignedEnds (a b : Pt) : Bool :=
  |a.x - b.x| < 1 / 1000000 || |a.y - b.y| < 1 / 1000000

/-- The seeding loop of `generateRouteWithBends` for `n ≥ 1` bends: for
`i = 1..n` (here `i = j+1` with `j < n`), `t = i/(n+1)`, wanted axis from
`(i-1) % 2`, emitting an interpolated-and-snapped point on the wanted
axis. -/
def seedBends (a b : Pt) (grid : ℚ) (mode : RouteMode) (n : ℕ) : List Pt :=
  (List.range n).map fun j =>
    let t : ℚ := (j + 1 : ℕ) / ((n : ℚ) + 1)
    if wantH mode j then
      ⟨snapToGrid (a.x + (b.x - a.x) * t) grid, snapToGrid a.y grid⟩
    else
      ⟨snapToGrid a.x grid, snapToGrid (a.y + (b.y - a.y) * t) grid⟩

/-- `generateRouteWithBends` from `src/helpers/wires.ts`.  The requested
count is clamped by `n = Math.max(0, Math.floor(bendCount))`; `n = 0`
returns `[]` for (1e-6-)aligned endpoints and otherwise the single
mandatory bend; `n ≥ 1` seeds, orthogonalizes, and snaps a second time. -/
def generateRouteWithBends (a b : Pt) (grid : ℚ) (mode : RouteMode) (bendCount : ℚ) : List Pt :=
  let n : ℕ := (max 0 ⌊bendCount⌋).toNat
  if n = 0 then
    if alignedEnds a b then []
    else if mode = .H then [⟨snapToGrid b.x grid, snapToGrid a.y grid⟩]
    else [⟨snapToGrid a.x grid, snapToGrid b.y grid⟩]
  else
    (orthogonalizeRoute a b (seedBends a b grid mode n) mode).map (snapPt grid)

example : snapToGrid (1/2) 1 = 1 := by norm_num [snapToGrid, round_eq]
example : generateRouteWithBends ⟨0,0⟩ ⟨100,40⟩ 20 .H 0 = [⟨100, 0⟩] := by
  norm_num [generateRouteWithBends, alignedEnds, snapToGrid, round_eq]
example : generateRouteWithBends ⟨0,0⟩ ⟨100,0⟩ 20 .H 0 = [] := by
  norm_num [generateRouteWithBends, alignedEnds]
example : generateRouteWithBends ⟨0,0⟩ ⟨100,40⟩ 20 .H 2 = [⟨40, 0⟩, ⟨40, 40⟩] := by
  norm_num [generateRouteWithBends, alignedEnds, seedBends, orthogonalizeRoute, orthoLoop,
    adjustLast, snapPt, wantH, snapToGrid, round_eq, List.range_succ,
    show ((2:ℤ)).toNat = 2 from rfl]

/-! ## The canvas wires core

`SchematicCanvas.tsx` (and its extracted module) wraps the `wires.ts`
helpers into per-connection operations.  Lookups that can fail —
`project.connections.find`, the two `portWorld` resolutions, the presence
of the `onUpdateWireRoute` callback — are modelled as `Option` / `Bool`
parameters; a persistence call `onUpdateWireRoute(connId, pts)` is
modelled as the function returning `some pts` (`none` = the callback was
not invoked). -/

/-- The stored-route part of a `Connection`: `route?` (absent/empty list
means implicit) and `routeMode?`.  The immutable ids and endpoints are
irrelevant to the routing algebra and are carried by the `Option Pt`
resolution parameters instead. -/
structure Conn where
  route : List Pt
  routeMode : Option RouteMode
deriving DecidableEq, Repr, Inhabited

/-- `getConnMode`: `m === "V" ? "V" : "H"` — anything but an explicit "V"
(including a missing `routeMode`) defaults to H. -/
def getConnMode (c : Conn) : RouteMode :=
  match c.routeMode with
  | some .V => .V
  | _ => .H

/-- The record returned by `polyPointsForConn`. -/
structure PolyInfo where
  aW : Pt
  bW : Pt
  mode : RouteMode
  bends : List Pt
  pts : List Pt
deriving DecidableEq, Repr, Inhabited

/-- `polyPointsForConn`: resolve both endpoints (null → null), take the
stored route if non-empty else generate a default 2-bend route, lock it
through the orthogonalizer, and return it with the full polyline
`[a, ...lockedBends, b]`.  `aRes`/`bRes` are the `portWorld` results. -/
def polyPointsForConn (c : Conn) (aRes bRes : Option Pt) (grid : ℚ) : Option PolyInfo :=
  match aRes, bRes with
  | some a, some b =>
    let mode := getConnMode c
    let bends := if c.route.length > 0 then c.route
      else generateRouteWithBends a b grid mode 2
    let locked := orthogonalizeRoute a b bends mode
    some ⟨a, b, mode, locked, a :: locked ++ [b]⟩
  | _, _ => none

/-- `ensureRoutePersisted`: no callback → return; unknown connection →
return; non-empty stored route → return; unresolvable endpoints → return;
otherwise persist the locked bends, snapped to the grid.  The result is
`some pts` exactly when `onUpdateWireRoute` is invoked (and it is invoked
at most once by construction). -/
def ensureRoutePersisted (hasCallback : Bool) (conn : Option Conn)
    (aRes bRes : Option Pt) (grid : ℚ) : Option (List Pt) :=
  if !hasCallback then none
  else
    match conn with
    | none => none
    | some c =>
      if c.route.length > 0 then none
      else
        match polyPointsForConn c aRes bRes grid with
        | none => none
        | some info => some (info.bends.map (snapPt grid))

/-- `worldToScreen` from `SchematicCanvas/coords.ts`:
`(x·zoom + pan.x, y·zoom + pan.y)`. -/
def worldToScreen (pan : Pt) (zoom : ℚ) (p : Pt) : Pt :=
  ⟨p.x * zoom + pan.x, p.y * zoom + pan.y⟩

/-- `screenToWorld` from `SchematicCanvas/coords.ts`:
`((sx − pan.x)/zoom, (sy − pan.y)/zoom)`. -/
def screenToWorld (pan : Pt) (zoom : ℚ) (sx sy : ℚ) : Pt :=
  ⟨(sx - pan.x) / zoom, (sy - pan.y) / zoom⟩

/-- The per-segment body of `pickSegment`'s loop: dominant axis
(`H` iff `|dx| ≥ |dy|`) and squared point-to-segment distance in screen
space, with `t` clamped to `[0,1]` and forced to `0` for segments of
squared length `≤ 1e-6`. -/
def segAxisD2 (px py : ℚ) (p0 p1 : Pt) : RouteMode × ℚ :=
  let dx := p1.x - p0.x
  let dy := p1.y - p0.y
  let axis : RouteMode := if |dx| ≥ |dy| then .H else .V
  let vv := dx * dx + dy * dy
  let wx := px - p0.x
  let wy := py - p0.y
  let t := if vv > 1 / 1000000 then max 0 (min 1 ((wx * dx + wy * dy) / vv)) else 0
  let cx := p0.x + t * dx
  let cy := p0.y + t * dy
  (axis, (px - cx) * (px - cx) + (py - cy) * (py - cy))

/-- The squared distance computed by `pickSegment` for one segment. -/
def segD2 (px py : ℚ) (s : Pt × Pt) : ℚ := (segAxisD2 px py s.1 s.2).2

/-- The dominant axis computed by `pickSegment` for one segment. -/
def segAxis (px py : ℚ) (s : Pt × Pt) : RouteMode := (segAxisD2 px py s.1 s.2).1

/-- The `for` loop of `pickSegment`: fold over the consecutive screen
point pairs carrying `(bestI, bestD2, bestAxis)`; `none` models the
initial `bestI = -1, bestD2 = +∞` state, and a segment replaces the best
only under strict `d2 < bestD2`. -/
def pickBest (px py : ℚ) : ℕ → Option (ℕ × ℚ × RouteMode) → List (Pt × Pt) →
    Option (ℕ × ℚ × RouteMode)
  | _, best, [] => best
  | i, best, s :: rest =>
    let d2 := segD2 px py s
    let best' :=
      match best with
      | none => some (i, d2, segAxis px py s)
      | some (bi, bd, bax) => if d2 < bd then some (i, d2, segAxis px py s) else some (bi, bd, bax)
    pickBest px py (i + 1) best' rest

/-- The list of consecutive screen-space point pairs of a polyline. -/
def screenSegs (pts : List Pt) (pan : Pt) (zoom : ℚ) : List (Pt × Pt) :=
  let s := pts.map (worldToScreen pan zoom)
  s.zip s.tail

/-- `pickSegment`: unknown connection or unresolved endpoints → null,
otherwise the index and dominant axis of the closest polyline segment to
the cursor (already converted to canvas coordinates `(px, py)` — the DOM
`canvasPointFromEvent` subtraction is outside this model).  The source
maps each point through `worldToScreen` inside the loop; here the
polyline is mapped up front, which visits the identical pairs. -/
def pickSegment (conn : Option Conn) (aRes bRes : Option Pt) (grid : ℚ)
    (pan : Pt) (zoom : ℚ) (px py : ℚ) : Option (ℕ × RouteMode) :=
  match conn with
  | none => none
  | some c =>
    match polyPointsForConn c aRes bRes grid with
    | none => none
    | some info =>
      match pickBest px py 0 none (screenSegs info.pts pan zoom) with
      | none => none
      | some (i, _, ax) => some (i, ax)

/-- `ptIndexToBendIndex` from `moveSegment` (with `pi : ℕ`, the `pi <= 0`
guard is `pi = 0`): polyline index 0 is endpoint `a`, polyline index
`≥ nB + 1` is endpoint `b`, all others map to `pi − 1`. -/
def ptIndexToBendIndex (nB pi : ℕ) : Option ℕ :=
  if pi = 0 then none
  else if nB + 1 ≤ pi then none
  else some (pi - 1)

/-- Overwrite the `y` of the element at a given index (out-of-range is a
no-op), modelling `bends[k].y = ny`. -/
def setY : ℕ → ℚ → List Pt → List Pt
  | _, _, [] => []
  | 0, v, p :: rest => { p with y := v } :: rest
  | k + 1, v, p :: rest => p :: setY k v rest

/-- Overwrite the `x` of the element at a given index (out-of-range is a
no-op), modelling `bends[k].x = nx`. -/
def setX : ℕ → ℚ → List Pt → List Pt
  | _, _, [] => []
  | 0, v, p :: rest => { p with x := v } :: rest
  | k + 1, v, p :: rest => p :: setX k v rest

/-- `moveSegment`, after the callback/connection/endpoint resolution
guards (all of which return without persisting): map the dragged
polyline segment's two ends to bend indices, compute the shared snapped
coordinate `ny`/`nx` (falling back to the live `a` endpoint when both
ends are endpoints), assign it to each non-`null` adjacent bend, then
re-orthogonalize against the live endpoints and re-snap.  The last two
`if (aB === null && bB !== null) ...` statements of the source re-assign
the value just assigned by the first two guarded statements, so they are
no-ops and are not repeated here.  The returned list is the one passed to
`onUpdateWireRoute`. -/
def moveSegment (aW bW : Pt) (mode : RouteMode) (grid : ℚ) (segIndex : ℕ)
    (axis : RouteMode) (deltaWorld : ℚ) (baseRoute : List Pt) : List Pt :=
  let nB := baseRoute.length
  let aB := ptIndexToBendIndex nB segIndex
  let bB := ptIndexToBendIndex nB (segIndex + 1)
  let bends :=
    match axis with
    | .H =>
      let orig :=
        match aB with
        | some k => (baseRoute.getD k default).y
        | none =>
          match bB with
          | some k => (baseRoute.getD k default).y
          | none => aW.y
      let ny := snapToGrid (orig + deltaWorld) grid
      let b1 := match aB with | some k => setY k ny baseRoute | none => baseRoute
      match bB with | some k => setY k ny b1 | none => b1
    | .V =>
      let orig :=
        match aB with
        | some k => (baseRoute.getD k default).x
        | none =>
          match bB with
          | some k => (baseRoute.getD k default).x
          | none => aW.x
      let nx := snapToGrid (orig + deltaWorld) grid
      let b1 := match aB with | some k => setX k nx baseRoute | none => baseRoute
      match bB with | some k => setX k nx b1 | none => b1
  (orthogonalizeRoute aW bW bends mode).map (snapPt grid)

/-- `setBendCount`, after the resolution guards: regenerate the route
with the requested count and persist it (the returned list is the one
passed to `onUpdateWireRoute`). -/
def setBendCount (aW bW : Pt) (grid : ℚ) (mode : RouteMode) (count : ℚ) : List Pt :=
  generateRouteWithBends aW bW grid mode count

/-- `addBend`: `setBendCount(connId, n + 1)` with `n` the current stored
route length. -/
def addBend (aW bW : Pt) (grid : ℚ) (mode : RouteMode) (route : List Pt) : List Pt :=
  setBendCount aW bW grid mode ((route.length : ℚ) + 1)

/-- `removeBend`: `setBendCount(connId, Math.max(0, n - 1))` with `n` the
current stored route length. -/
def removeBend (aW bW : Pt) (grid : ℚ) (mode : RouteMode) (route : List Pt) : List Pt :=
  setBendCount aW bW grid mode (max 0 ((route.length : ℚ) - 1))

/-- `resetRoute`: `setBendCount(connId, 2)`. -/
def resetRoute (aW bW : Pt) (grid : ℚ) (mode : RouteMode) : List Pt :=
  setBendCount aW bW grid mode 2

/-! ## Wheel zoom (`onWheel` in `SchematicCanvas.tsx`) -/

/-- `clamp` from `App.tsx` / `helpers`: `Math.max(lo, Math.min(hi, n))`. -/
def clamp (n lo hi : ℚ) : ℚ := max lo (min hi n)

/-- `ZOOM_MIN = 0.3`. -/
def ZOOM_MIN : ℚ := 3 / 10

/-- `ZOOM_MAX = 2.5`. -/
def ZOOM_MAX : ℚ := 5 / 2

/-- The canvas view state: `pan` and `zoom` (`screen = world·zoom + pan`). -/
structure ViewState where
  pan : Pt
  zoom : ℚ
deriving DecidableEq, Repr, Inhabited

/-- One wheel event as seen by `onWheel`, after the canvas-point
conversion: cursor `(sx, sy)` and the zoom factor
`factor = Math.exp(-e.deltaY * 0.0015)`.  `exp` is transcendental, so the
event carries the factor itself; as `deltaY` ranges over the reals the
factor ranges over the positive numbers, and the theorems below quantify
over positive rational factors. -/
structure WheelEvent where
  sx : ℚ
  sy : ℚ
  factor : ℚ
deriving DecidableEq, Repr, Inhabited

/-- The body of `onWheel`: capture the world point under the cursor,
clamp the multiplied zoom, and recompute pan so that the captured point
stays under the cursor. -/
def onWheel (st : ViewState) (e : WheelEvent) : ViewState :=
  let before := screenToWorld st.pan st.zoom e.sx e.sy
  let nextZoom := clamp (st.zoom * e.factor) ZOOM_MIN ZOOM_MAX
  let appliedFactor := nextZoom / st.zoom
  ⟨⟨e.sx - before.x * (st.zoom * appliedFactor), e.sy - before.y * (st.zoom * appliedFactor)⟩,
    nextZoom⟩

/-- A finite sequence of wheel events applied in order. -/
def wheelEvents (st : ViewState) (es : List WheelEvent) : ViewState :=
  es.foldl onWheel st

/-! ## Specification predicates

Boolean (hence executable) predicates describing routes.  `consistentB`
is the alternating-axis constraint that `orthogonalizeRoute`'s loop
enforces, `lastOKB` the trailing-segment constraint of its tail
adjustment; together they say a bend list is orthogonal between the two
endpoints. -/

/-- Segment `prev → p` agrees with the wanted axis: equal `y` for a
horizontal segment, equal `x` for a vertical one. -/
def segOkB (mode : RouteMode) (i : ℕ) (prev p : Pt) : Bool :=
  if wantH mode i then p.y == prev.y else p.x == prev.x

/-- Every bend satisfies the alternating-axis constraint against its
predecessor (`prev` seeds the chain, `i` the index of the first bend). -/
def consistentB (mode : RouteMode) : ℕ → Pt → List Pt → Bool
  | _, _, [] => true
  | i, prev, p :: rest => segOkB mode i prev p && consistentB mode (i + 1) p rest

/-- The last bend (if any) agrees with endpoint `b` on the trailing
segment's wanted axis `w`. -/
def lastOKB (b : Pt) (w : Bool) : List Pt → Bool
  | [] => true
  | [p] => if w then p.y == b.y else p.x == b.x
  | _ :: q :: rest => lastOKB b w (q :: rest)

/-- Two points agree in at least one coordinate (the segment between them
is axis-aligned, possibly degenerate). -/
def alignedB (p q : Pt) : Bool := p.x == q.x || p.y == q.y

/-- Two points differ in exactly one coordinate (the §3 invariant read
literally). -/
def exactlyOneDiffB (p q : Pt) : Bool :=
  (!(p.x == q.x) && p.y == q.y) || (p.x == q.x && !(p.y == q.y))

/-- Every consecutive pair of the polyline `[a, ...bends, b]` satisfies
the pairwise predicate `f`. -/
def chainB (f : Pt → Pt → Bool) : Pt → List Pt → Pt → Bool
  | p, [], q => f p q
  | p, r :: rest, q => f p r && chainB f r rest q

/-! ## Length lemmas -/

theorem setY_length (v : ℚ) : ∀ (k : ℕ) (l : List Pt), (setY k v l).length = l.length
  | 0, [] => rfl
  | _ + 1, [] => rfl
  | 0, _ :: _ => rfl
  | k + 1, _ :: rest => by
    simp only [setY, List.length_cons]
    exact congrArg (· + 1) (setY_length v k rest)

theorem orthoLoop_length (mode : RouteMode) :
    ∀ (l : List Pt) (prev : Pt) (i : ℕ), (orthoLoop mode prev i l).length = l.length
  | [], _, _ => rfl
  | _ :: rest, prev, i => by
    simp only [orthoLoop, List.length_cons]
    exact congrArg (· + 1) (orthoLoop_length mode rest _ (i + 1))

theorem adjustLast_length (b : Pt) (w : Bool) :
    ∀ l : List Pt, (adjustLast b w l).length = l.length
  | [] => rfl
  | [_] => by simp [adjustLast]
  | _ :: q :: rest => by
    simp only [adjustLast, List.length_cons]
    exact congrArg (· + 1) (adjustLast_length b w (q :: rest))

theorem orthogonalizeRoute_length (a b : Pt) (l : List Pt) (mode : RouteMode) :
    (orthogonalizeRoute a b l mode).length = l.length := by
  unfold orthogonalizeRoute
  rw [adjustLast_length, orthoLoop_length]

theorem seedBends_length (a b : Pt) (grid : ℚ) (mode : RouteMode) (n : ℕ) :
    (seedBends a b grid mode n).length = n := by
  simp [seedBends]

theorem generateRouteWithBends_length (a b : Pt) (grid : ℚ) (mode : RouteMode) (c : ℚ) :
    (generateRouteWithBends a b grid mode c).length =
      if (max 0 ⌊c⌋).toNat = 0 then (if alignedEnds a b then 0 else 1)
      else (max 0 ⌊c⌋).toNat := by
  unfold generateRouteWithBends
  by_cases hn : (max 0 ⌊c⌋).toNat = 0 <;>
    by_cases ha : alignedEnds a b <;>
    cases mode <;>
    simp [hn, ha, orthogonalizeRoute_length, seedBends_length]

/-! ## The alternating parity -/

theorem wantH_succ (mode : RouteMode) (i : ℕ) : wantH mode (i + 1) = !wantH mode i := by
  rcases Nat.mod_two_eq_zero_or_one i with h | h <;> cases mode <;>
    simp [wantH, Nat.succ_mod_two_eq_zero_iff, Nat.succ_mod_two_eq_one_iff, h]

/-! ## The orthogonalizer loop and the consistency predicate -/

theorem consistentB_cons (mode : RouteMode) (i : ℕ) (prev p : Pt) (rest : List Pt) :
    consistentB mode i prev (p :: rest) =
      (segOkB mode i prev p && consistentB mode (i + 1) p rest) := rfl

/-- The loop output is consistent. -/
theorem orthoLoop_consistent (mode : RouteMode) :
    ∀ (l : List Pt) (prev : Pt) (i : ℕ),
      consistentB mode i prev (orthoLoop mode prev i l) = true
  | [], _, _ => rfl
  | p :: rest, prev, i => by
    by_cases h : wantH mode i = true <;>
      simp [orthoLoop, consistentB, segOkB, h, orthoLoop_consistent mode rest _ (i + 1)]

/-- The loop fixes consistent lists. -/
theorem orthoLoop_fix (mode : RouteMode) :
    ∀ (l : List Pt) (prev : Pt) (i : ℕ),
      consistentB mode i prev l = true → orthoLoop mode prev i l = l
  | [], _, _, _ => rfl
  | p :: rest, prev, i, h => by
    obtain ⟨px, py⟩ := p
    simp only [consistentB, segOkB, Bool.and_eq_true] at h
    obtain ⟨h1, h2⟩ := h
    by_cases hw : wantH mode i = true
    · simp only [hw, if_pos] at h1
      have hy : py = prev.y := by simpa using h1
      simp [orthoLoop, hw, hy, orthoLoop_fix mode rest _ (i + 1) (hy ▸ h2)]
    · simp only [hw, if_neg, Bool.false_eq_true, not_false_eq_true] at h1
      have hx : px = prev.x := by simpa using h1
      simp [orthoLoop, hw, hx, orthoLoop_fix mode rest _ (i + 1) (hx ▸ h2)]

/-- The tail adjustment establishes its own constraint. -/
theorem adjustLast_lastOK (b : Pt) (w : Bool) :
    ∀ l : List Pt, lastOKB b w (adjustLast b w l) = true
  | [] => rfl
  | [p] => by cases w <;> simp [adjustLast, lastOKB]
  | p :: q :: rest => by
    have h := adjustLast_lastOK b w (q :: rest)
    cases hr : adjustLast b w (q :: rest) with
    | nil =>
      have := adjustLast_length b w (q :: rest)
      rw [hr] at this
      simp at this
    | cons r rs => simpa [adjustLast, hr, lastOKB] using (hr ▸ h)

/-- The tail adjustment fixes lists that already satisfy its constraint. -/
theorem adjustLast_fix (b : Pt) (w : Bool) :
    ∀ l : List Pt, lastOKB b w l = true → adjustLast b w l = l
  | [], _ => rfl
  | [p], h => by
    obtain ⟨px, py⟩ := p
    cases w <;> simp_all [adjustLast, lastOKB]
  | p :: q :: rest, h => by
    simp only [lastOKB] at h
    simp [adjustLast, adjustLast_fix b w (q :: rest) h]

/-- Consistency only reads `prev` through the head constraint. -/
theorem consistentB_congr_prev (mode : RouteMode) (l : List Pt) (i : ℕ) (prev prev' : Pt)
    (hx : wantH mode i = false → prev'.x = prev.x)
    (hy : wantH mode i = true → prev'.y = prev.y)
    (h : consistentB mode i prev l = true) : consistentB mode i prev' l = true := by
  cases l with
  | nil => rfl
  | cons p rest =>
    simp only [consistentB, segOkB, Bool.and_eq_true] at h ⊢
    refine ⟨?_, h.2⟩
    by_cases hw : wantH mode i = true
    · simpa [hw, hy hw] using h.1
    · have hw' : wantH mode i = false := by simpa using hw
      simpa [hw', hx hw'] using h.1

/-- The tail adjustment (at the parity the orthogonalizer uses) preserves
consistency: it only writes the coordinate the loop left free. -/
theorem adjustLast_consistent (mode : RouteMode) (b : Pt) :
    ∀ (l : List Pt) (i : ℕ) (prev : Pt),
      consistentB mode i prev l = true →
      consistentB mode i prev (adjustLast b (wantH mode (i + l.length)) l) = true
  | [], _, _, _ => rfl
  | [p], i, prev, h => by
    simp only [consistentB, segOkB, Bool.and_eq_true] at h
    have hw1 : wantH mode (i + 1) = !wantH mode i := wantH_succ mode i
    by_cases hw : wantH mode i = true
    · simp_all [adjustLast, consistentB, segOkB]
    · simp_all [adjustLast, consistentB, segOkB]
  | p :: q :: rest, i, prev, h => by
    rw [consistentB_cons, Bool.and_eq_true] at h
    have harith : i + (p :: q :: rest).length = (i + 1) + (q :: rest).length := by
      simp only [List.length_cons]
      omega
    have hrec := adjustLast_consistent mode b (q :: rest) (i + 1) p h.2
    rw [harith]
    show consistentB mode i prev (p :: adjustLast b _ (q :: rest)) = true
    rw [consistentB_cons, Bool.and_eq_true]
    exact ⟨h.1, hrec⟩

/-- The full orthogonalizer output is consistent. -/
theorem orthogonalizeRoute_consistent (a b : Pt) (l : List Pt) (mode : RouteMode) :
    consistentB mode 0 a (orthogonalizeRoute a b l mode) = true := by
  unfold orthogonalizeRoute
  have h := adjustLast_consistent mode b (orthoLoop mode a 0 l) 0 a
    (orthoLoop_consistent mode l a 0)
  rwa [Nat.zero_add, orthoLoop_length] at h

/-- The full orthogonalizer output satisfies the trailing constraint (at
the input-length parity, which equals the output-length parity). -/
theorem orthogonalizeRoute_lastOK (a b : Pt) (l : List Pt) (mode : RouteMode) :
    lastOKB b (wantH mode l.length) (orthogonalizeRoute a b l mode) = true :=
  adjustLast_lastOK b (wantH mode l.length) (orthoLoop mode a 0 l)

/-- The orthogonalizer fixes lists that are already consistent and
satisfy the trailing constraint. -/
theorem orthogonalizeRoute_fix (a b : Pt) (l : List Pt) (mode : RouteMode)
    (hc : consistentB mode 0 a l = true)
    (hl : lastOKB b (wantH mode l.length) l = true) :
    orthogonalizeRoute a b l mode = l := by
  unfold orthogonalizeRoute
  rw [orthoLoop_fix mode l a 0 hc, adjustLast_fix b _ l hl]

/-- Idempotence of the orthogonalizer. -/
theorem orthogonalizeRoute_idem (a b : Pt) (l : List Pt) (mode : RouteMode) :
    orthogonalizeRoute a b (orthogonalizeRoute a b l mode) mode =
      orthogonalizeRoute a b l mode := by
  have hlen : (orthogonalizeRoute a b l mode).length = l.length :=
    orthogonalizeRoute_length a b l mode
  refine orthogonalizeRoute_fix a b _ mode (orthogonalizeRoute_consistent a b l mode) ?_
  rw [hlen]
  exact orthogonalizeRoute_lastOK a b l mode

/-! ## The segment-picking loop -/

theorem pickBest_cons (px py : ℚ) (k : ℕ) (bi : ℕ) (bd : ℚ) (bax : RouteMode)
    (s : Pt × Pt) (rest : List (Pt × Pt)) :
    pickBest px py k (some (bi, bd, bax)) (s :: rest) =
      pickBest px py (k + 1)
        (if segD2 px py s < bd then some (k, segD2 px py s, segAxis px py s)
         else some (bi, bd, bax)) rest := rfl

/-- Invariant of the loop run from a concrete best-so-far: either the
accumulator survives (it is `≤` every remaining distance), or the first
remaining segment strictly below the accumulator and minimal among the
remaining ones is selected. -/
theorem pickBest_go_spec (px py : ℚ) :
    ∀ (l : List (Pt × Pt)) (k bi : ℕ) (bd : ℚ) (bax : RouteMode),
      (pickBest px py k (some (bi, bd, bax)) l = some (bi, bd, bax) ∧
        ∀ j, j < l.length → bd ≤ segD2 px py (l.getD j default)) ∨
      (∃ i, i < l.length ∧
        pickBest px py k (some (bi, bd, bax)) l =
          some (k + i, segD2 px py (l.getD i default), segAxis px py (l.getD i default)) ∧
        segD2 px py (l.getD i default) < bd ∧
        (∀ j, j < l.length → segD2 px py (l.getD i default) ≤ segD2 px py (l.getD j default)) ∧
        (∀ j, j < i → segD2 px py (l.getD i default) < segD2 px py (l.getD j default)))
  | [], k, bi, bd, bax => Or.inl ⟨rfl, by simp⟩
  | s :: rest, k, bi, bd, bax => by
    rw [pickBest_cons]
    by_cases h0 : segD2 px py s < bd
    · rw [if_pos h0]
      rcases pickBest_go_spec px py rest (k + 1) k (segD2 px py s) (segAxis px py s) with
        ⟨heq, hall⟩ | ⟨i', hi', heq, hlt, hall, hfirst⟩
      · refine Or.inr ⟨0, by simp, ?_, ?_, ?_, ?_⟩
        · simpa using heq
        · simpa using h0
        · intro j hj
          cases j with
          | zero => simp
          | succ j =>
            simp only [List.getD_cons_succ, List.getD_cons_zero]
            exact hall j (by simpa using hj)
        · intro j hj
          omega
      · refine Or.inr ⟨i' + 1, by simpa using hi', ?_, ?_, ?_, ?_⟩
        · rw [show k + (i' + 1) = (k + 1) + i' by omega]
          simpa using heq
        · simp only [List.getD_cons_succ]
          exact lt_trans hlt h0
        · intro j hj
          cases j with
          | zero =>
            simp only [List.getD_cons_succ, List.getD_cons_zero]
            exact le_of_lt hlt
          | succ j =>
            simp only [List.getD_cons_succ]
            exact hall j (by simpa using hj)
        · intro j hj
          cases j with
          | zero =>
            simp only [List.getD_cons_succ, List.getD_cons_zero]
            exact hlt
          | succ j =>
            simp only [List.getD_cons_succ]
            exact hfirst j (by omega)
    · rw [if_neg h0]
      have hbd : bd ≤ segD2 px py s := not_lt.mp h0
      rcases pickBest_go_spec px py rest (k + 1) bi bd bax with
        ⟨heq, hall⟩ | ⟨i', hi', heq, hlt, hall, hfirst⟩
      · refine Or.inl ⟨heq, ?_⟩
        intro j hj
        cases j with
        | zero => simpa using hbd
        | succ j =>
          simp only [List.getD_cons_succ]
          exact hall j (by simpa using hj)
      · refine Or.inr ⟨i' + 1, by simpa using hi', ?_, ?_, ?_, ?_⟩
        · rw [show k + (i' + 1) = (k + 1) + i' by omega]
          simpa using heq
        · simpa using hlt
        · intro j hj
          cases j with
          | zero =>
            simp only [List.getD_cons_succ, List.getD_cons_zero]
            exact le_of_lt (lt_of_lt_of_le hlt hbd)
          | succ j =>
            simp only [List.getD_cons_succ]
            exact hall j (by simpa using hj)
        · intro j hj
          cases j with
          | zero =>
            simp only [List.getD_cons_succ, List.getD_cons_zero]
            exact lt_of_lt_of_le hlt hbd
          | succ j =>
            simp only [List.getD_cons_succ]
            exact hfirst j (by omega)

/-- Full-loop behaviour from the `bestI = -1, bestD2 = ∞` start: on a
non-empty segment list, the result is the first segment achieving the
global minimum squared distance, with its dominant axis. -/
theorem pickBest_spec (px py : ℚ) :
    ∀ l : List (Pt × Pt), l ≠ [] →
      ∃ i, i < l.length ∧
        pickBest px py 0 none l =
          some (i, segD2 px py (l.getD i default), segAxis px py (l.getD i default)) ∧
        (∀ j, j < l.length → segD2 px py (l.getD i default) ≤ segD2 px py (l.getD j default)) ∧
        (∀ j, j < i → segD2 px py (l.getD i default) < segD2 px py (l.getD j default))
  | [], h => absurd rfl h
  | s :: rest, _ => by
    have hstep : pickBest px py 0 none (s :: rest) =
        pickBest px py 1 (some (0, segD2 px py s, segAxis px py s)) rest := rfl
    rcases pickBest_go_spec px py rest 1 0 (segD2 px py s) (segAxis px py s) with
      ⟨heq, hall⟩ | ⟨i', hi', heq, hlt, hall, hfirst⟩
    · refine ⟨0, by simp, ?_, ?_, ?_⟩
      · rw [hstep]
        simpa using heq
      · intro j hj
        cases j with
        | zero => simp
        | succ j =>
          simp only [List.getD_cons_succ, List.getD_cons_zero]
          exact hall j (by simpa using hj)
      · intro j hj
        omega
    · refine ⟨i' + 1, by simpa using hi', ?_, ?_, ?_⟩
      · rw [hstep, show (1 : ℕ) + i' = i' + 1 from Nat.add_comm 1 i' ▸ rfl] at *
        rw [heq]
        simp [Nat.add_comm 1 i']
      · intro j hj
        cases j with
        | zero =>
          simp only [List.getD_cons_succ, List.getD_cons_zero]
          exact le_of_lt hlt
        | succ j =>
          simp only [List.getD_cons_succ]
          exact hall j (by simpa using hj)
      · intro j hj
        cases j with
        | zero =>
          simp only [List.getD_cons_succ, List.getD_cons_zero]
          exact hlt
        | succ j =>
          simp only [List.getD_cons_succ]
          exact hfirst j (by omega)

theorem screenSegs_length (pts : List Pt) (pan : Pt) (zoom : ℚ) :
    (screenSegs pts pan zoom).length = pts.length - 1 := by
  simp [screenSegs]

/-- Inversion of a successful `polyPointsForConn`. -/
theorem polyPointsForConn_some (c : Conn) (aRes bRes : Option Pt) (grid : ℚ) (info : PolyInfo)
    (h : polyPointsForConn c aRes bRes grid = some info) :
    ∃ a b, aRes = some a ∧ bRes = some b ∧ info.aW = a ∧ info.bW = b ∧
      info.mode = getConnMode c ∧
      info.bends = orthogonalizeRoute a b
        (if c.route.length > 0 then c.route else generateRouteWithBends a b grid (getConnMode c) 2)
        (getConnMode c) ∧
      info.pts = a :: info.bends ++ [b] := by
  cases aRes with
  | none => simp [polyPointsForConn] at h
  | some a =>
    cases bRes with
    | none => simp [polyPointsForConn] at h
    | some b =>
      simp only [polyPointsForConn, Option.some_inj] at h
      exact ⟨a, b, rfl, rfl, by rw [← h], by rw [← h], by rw [← h], by rw [← h], by rw [← h]⟩

/-! ## Grid multiples -/

/-- A value is an integer multiple of the grid unit. -/
def OnGrid (g v : ℚ) : Prop := ∃ k : ℤ, v = k * g

/-- Both coordinates are grid multiples. -/
def OnGridPt (g : ℚ) (p : Pt) : Prop := OnGrid g p.x ∧ OnGrid g p.y

theorem snapToGrid_onGrid (g v : ℚ) (hg : 0 < g) : OnGrid g (snapToGrid v g) :=
  ⟨round (v / g), by simp [snapToGrid, not_le.mpr hg]⟩

theorem snapToGrid_of_onGrid (g v : ℚ) (hg : 0 < g) (hv : OnGrid g v) :
    snapToGrid v g = v := by
  obtain ⟨k, rfl⟩ := hv
  rw [snapToGrid, if_neg (not_le.mpr hg), mul_div_cancel_right₀ _ (ne_of_gt hg), round_intCast]

theorem snapPt_onGrid (g : ℚ) (p : Pt) (hg : 0 < g) : OnGridPt g (snapPt g p) :=
  ⟨snapToGrid_onGrid g p.x hg, snapToGrid_onGrid g p.y hg⟩

theorem snapPt_of_onGrid (g : ℚ) (p : Pt) (hg : 0 < g) (hp : OnGridPt g p) :
    snapPt g p = p := by
  obtain ⟨px, py⟩ := p
  obtain ⟨hx, hy⟩ := hp
  simp [snapPt, snapToGrid_of_onGrid g _ hg hx, snapToGrid_of_onGrid g _ hg hy]

theorem map_snapPt_of_onGrid (g : ℚ) (hg : 0 < g) :
    ∀ l : List Pt, (∀ p ∈ l, OnGridPt g p) → l.map (snapPt g) = l
  | [], _ => rfl
  | p :: rest, h => by
    rw [List.map_cons, snapPt_of_onGrid g p hg (h p (by simp)),
      map_snapPt_of_onGrid g hg rest fun q hq => h q (by simp [hq])]

theorem orthoLoop_onGrid (mode : RouteMode) (g : ℚ) :
    ∀ (l : List Pt) (prev : Pt) (i : ℕ), OnGridPt g prev → (∀ p ∈ l, OnGridPt g p) →
      ∀ p ∈ orthoLoop mode prev i l, OnGridPt g p
  | [], _, _, _, _ => by simp [orthoLoop]
  | p :: rest, prev, i, hprev, hl => by
    have hp : OnGridPt g p := hl p (by simp)
    have hp' : OnGridPt g (if wantH mode i then { p with y := prev.y } else { p with x := prev.x }) := by
      by_cases hw : wantH mode i = true <;> simp only [hw] <;>
        simp_all [OnGridPt]
    intro q hq
    simp only [orthoLoop, List.mem_cons] at hq
    rcases hq with rfl | hq
    · exact hp'
    · exact orthoLoop_onGrid mode g rest _ (i + 1) hp'
        (fun r hr => hl r (by simp [hr])) q hq

theorem adjustLast_onGrid (b : Pt) (w : Bool) (g : ℚ) :
    ∀ l : List Pt, OnGridPt g b → (∀ p ∈ l, OnGridPt g p) →
      ∀ p ∈ adjustLast b w l, OnGridPt g p
  | [], _, _ => by simp [adjustLast]
  | [p], hb, hl => by
    intro q hq
    have hp : OnGridPt g p := hl p (by simp)
    cases w <;> simp only [adjustLast, List.mem_singleton] at hq <;>
      subst hq <;> simp_all [OnGridPt]
  | p :: r :: rest, hb, hl => by
    intro q hq
    simp only [adjustLast, List.mem_cons] at hq
    rcases hq with rfl | hq
    · exact hl q (by simp)
    · exact adjustLast_onGrid b w g (r :: rest) hb
        (fun s hs => hl s (by simp [hs])) q (by simpa using hq)

theorem seedBends_onGrid (a b : Pt) (g : ℚ) (mode : RouteMode) (n : ℕ) (hg : 0 < g) :
    ∀ p ∈ seedBends a b g mode n, OnGridPt g p := by
  intro p hp
  simp only [seedBends, List.mem_map] at hp
  obtain ⟨j, -, rfl⟩ := hp
  by_cases hw : wantH mode j = true <;>
    simp only [hw, if_pos, if_neg, Bool.false_eq_true, not_false_eq_true, ite_true, ite_false] <;>
    exact ⟨snapToGrid_onGrid g _ hg, snapToGrid_onGrid g _ hg⟩

/-- Two grid multiples within the `1e-6` tolerance are equal once the
grid unit is at least the tolerance. -/
theorem onGrid_close_eq (g u v : ℚ) (hg : 1 / 1000000 ≤ g)
    (hu : OnGrid g u) (hv : OnGrid g v) (h : |u - v| < 1 / 1000000) : u = v := by
  have hg0 : 0 < g := lt_of_lt_of_le (by norm_num) hg
  obtain ⟨k1, rfl⟩ := hu
  obtain ⟨k2, rfl⟩ := hv
  have h1 : |((k1 : ℚ) - k2) * g| < g := by
    have hrw : (k1 : ℚ) * g - k2 * g = ((k1 : ℚ) - k2) * g := by ring
    rw [hrw] at h
    exact lt_of_lt_of_le h hg
  rw [abs_mul, abs_of_pos hg0] at h1
  have h2 : |(k1 : ℚ) - k2| < 1 :=
    (mul_lt_mul_right hg0).mp
      (show |(k1 : ℚ) - k2| * g < 1 * g by rw [one_mul]; exact h1)
  have h3 : k1 = k2 := by
    obtain ⟨h4, h5⟩ := abs_lt.mp h2
    have h6 : (-1 : ℤ) < k1 - k2 := by exact_mod_cast (by push_cast; linarith : (-1 : ℚ) < ((k1 - k2 : ℤ) : ℚ))
    have h7 : (k1 - k2 : ℤ) < 1 := by exact_mod_cast (by push_cast; linarith : ((k1 - k2 : ℤ) : ℚ) < 1)
    omega
  rw [h3]

theorem orthogonalizeRoute_onGrid (a b : Pt) (l : List Pt) (mode : RouteMode) (g : ℚ)
    (ha : OnGridPt g a) (hb : OnGridPt g b) (hl : ∀ p ∈ l, OnGridPt g p) :
    ∀ p ∈ orthogonalizeRoute a b l mode, OnGridPt g p := by
  unfold orthogonalizeRoute
  exact adjustLast_onGrid b _ g _ hb (orthoLoop_onGrid mode g l a 0 ha hl)

/-! ## Axis-aligned chains -/

theorem chainB_cons (f : Pt → Pt → Bool) (p r : Pt) (rest : List Pt) (q : Pt) :
    chainB f p (r :: rest) q = (f p r && chainB f r rest q) := rfl

theorem segOkB_aligned (mode : RouteMode) (i : ℕ) (prev p : Pt)
    (h : segOkB mode i prev p = true) : alignedB prev p = true := by
  unfold segOkB at h
  by_cases hw : wantH mode i = true <;> simp [hw] at h <;> simp [alignedB, h]

/-- A consistent bend list satisfying the trailing constraint forms an
axis-aligned polyline between the endpoints. -/
theorem consistent_lastOK_chain (mode : RouteMode) (b : Pt) :
    ∀ (l : List Pt) (i : ℕ) (prev : Pt), l ≠ [] →
      consistentB mode i prev l = true →
      lastOKB b (wantH mode (i + l.length)) l = true →
      chainB alignedB prev l b = true
  | [], _, _, hne, _, _ => absurd rfl hne
  | [p], i, prev, _, hc, hl => by
    rw [consistentB_cons, Bool.and_eq_true] at hc
    have h1 : alignedB prev p = true := segOkB_aligned mode i prev p hc.1
    have h2 : alignedB p b = true := by
      simp only [lastOKB] at hl
      by_cases hw : wantH mode (i + 1) = true <;>
        simp_all [List.length_cons, alignedB]
    simp [chainB, h1, h2]
  | p :: q :: rest, i, prev, _, hc, hl => by
    rw [consistentB_cons, Bool.and_eq_true] at hc
    have h1 : alignedB prev p = true := segOkB_aligned mode i prev p hc.1
    have harith : i + (p :: q :: rest).length = (i + 1) + (q :: rest).length := by
      simp only [List.length_cons]
      omega
    have hl' : lastOKB b (wantH mode ((i + 1) + (q :: rest).length)) (q :: rest) = true := by
      rw [← harith]
      exact hl
    have hrec := consistent_lastOK_chain mode b (q :: rest) (i + 1) p (by simp) hc.2 hl'
    rw [chainB_cons, Bool.and_eq_true]
    exact ⟨h1, hrec⟩

/-! ## Dragging an interior horizontal segment: `setY` surgery -/

/-- Writing `ny` into the `y` of two adjacent bends `k` and `k+1` whose
connecting segment wants to be horizontal keeps the list consistent: the
constraints at `k` and `k+2` are `x`-constraints (parity alternates), and
the one at `k+1` is re-established because both new `y`s agree. -/
theorem consistentB_setY2 (mode : RouteMode) (ny : ℚ) :
    ∀ (k : ℕ) (l : List Pt) (i : ℕ) (prev : Pt),
      consistentB mode i prev l = true →
      wantH mode (i + k + 1) = true →
      k + 1 < l.length →
      consistentB mode i prev (setY (k + 1) ny (setY k ny l)) = true
  | 0, p :: q :: rest, i, prev, hc, hw, _ => by
    have hw0 : wantH mode i = false := by
      have := wantH_succ mode i
      rw [show i + 0 + 1 = i + 1 from rfl] at hw
      rw [hw] at this
      simpa using this.symm
    rw [consistentB_cons, Bool.and_eq_true] at hc
    obtain ⟨h1, hc2⟩ := hc
    rw [consistentB_cons, Bool.and_eq_true] at hc2
    obtain ⟨h2, h3⟩ := hc2
    show consistentB mode i prev
      ({ p with y := ny } :: { q with y := ny } :: rest) = true
    rw [consistentB_cons, Bool.and_eq_true]
    constructor
    · simpa [segOkB, hw0] using h1
    · rw [consistentB_cons, Bool.and_eq_true]
      refine ⟨?_, ?_⟩
      · simp [segOkB, show wantH mode (i + 1) = true by simpa using hw]
      · refine consistentB_congr_prev mode rest (i + 2) q { q with y := ny } ?_ ?_ h3
        · intro _; rfl
        · intro hcon
          have : wantH mode (i + 2) = false := by
            rw [wantH_succ]
            simp [show wantH mode (i + 1) = true by simpa using hw]
          rw [this] at hcon
          cases hcon
  | 0, [], _, _, _, _, hlen => by simp at hlen
  | 0, [_], _, _, _, _, hlen => by simp at hlen
  | k + 1, [], _, _, _, _, hlen => by simp at hlen
  | k + 1, p :: rest, i, prev, hc, hw, hlen => by
    rw [consistentB_cons, Bool.and_eq_true] at hc
    have hrec := consistentB_setY2 mode ny k rest (i + 1) p hc.2
      (by rw [show i + 1 + k + 1 = i + (k + 1) + 1 by omega]; exact hw)
      (by simpa [Nat.lt_succ_iff] using Nat.lt_of_succ_lt_succ (by simpa using hlen))
    show consistentB mode i prev (p :: setY (k + 1) ny (setY k ny rest)) = true
    rw [consistentB_cons, Bool.and_eq_true]
    exact ⟨hc.1, hrec⟩

/-- Writing into a `y` never disturbs an `x`-type trailing constraint. -/
theorem lastOKB_setY_false (b : Pt) (v : ℚ) :
    ∀ (l : List Pt) (m : ℕ), lastOKB b false l = true →
      lastOKB b false (setY m v l) = true
  | [], 0, _ => rfl
  | [], _ + 1, _ => rfl
  | [p], 0, h => by simpa [setY, lastOKB] using h
  | [p], m + 1, h => by simpa [setY, lastOKB] using h
  | p :: q :: rest, 0, h => by
    simpa [setY, lastOKB] using h
  | p :: q :: rest, m + 1, h => by
    show lastOKB b false (p :: setY m v (q :: rest)) = true
    have hrec := lastOKB_setY_false b v (q :: rest) m h
    cases hsy : setY m v (q :: rest) with
    | nil =>
      have := setY_length v m (q :: rest)
      rw [hsy] at this
      simp at this
    | cons r rs => simpa [lastOKB, hsy] using (hsy ▸ hrec)

/-- Writing strictly before the last element never disturbs the trailing
constraint. -/
theorem lastOKB_setY_lt (b : Pt) (v : ℚ) (w : Bool) :
    ∀ (l : List Pt) (m : ℕ), m + 1 < l.length → lastOKB b w l = true →
      lastOKB b w (setY m v l) = true
  | [], _, hm, _ => by simp at hm
  | [p], m, hm, _ => by simp at hm
  | p :: q :: rest, 0, _, h => by
    simpa [setY, lastOKB] using h
  | p :: q :: rest, m + 1, hm, h => by
    show lastOKB b w (p :: setY m v (q :: rest)) = true
    have hrec := lastOKB_setY_lt b v w (q :: rest) m
      (by simpa using Nat.lt_of_succ_lt_succ (by simpa using hm)) h
    cases hsy : setY m v (q :: rest) with
    | nil =>
      have := setY_length v m (q :: rest)
      rw [hsy] at this
      simp at this
    | cons r rs => simpa [lastOKB, hsy] using (hsy ▸ hrec)

/-- `setY` preserves grid alignment when the written value is aligned. -/
theorem setY_onGrid (g v : ℚ) (hv : OnGrid g v) :
    ∀ (l : List Pt) (m : ℕ), (∀ p ∈ l, OnGridPt g p) →
      ∀ p ∈ setY m v l, OnGridPt g p
  | [], _, _ => by simp [setY]
  | p :: rest, 0, hl => by
    intro q hq
    simp only [setY, List.mem_cons] at hq
    rcases hq with rfl | hq
    · exact ⟨(hl p (by simp)).1, hv⟩
    · exact hl q (by simp [hq])
  | p :: rest, m + 1, hl => by
    intro q hq
    simp only [setY, List.mem_cons] at hq
    rcases hq with rfl | hq
    · exact hl q (by simp)
    · exact setY_onGrid g v hv rest m (fun r hr => hl r (by simp [hr])) q hq

theorem ptIndexToBendIndex_some (nB pi : ℕ) (h1 : pi ≠ 0) (h2 : pi < nB + 1) :
    ptIndexToBendIndex nB pi = some (pi - 1) := by
  simp [ptIndexToBendIndex, h1, Nat.not_le.mpr h2]

/-! ## Snapping equivalence

Two points are snap-equivalent when snapping sends them to the same
point; `orthogonalizeRoute` respects this relation, which is what makes
"orthogonalize, snap, orthogonalize again, snap again" collapse. -/

/-- Snap-equivalence of points for a given grid. -/
def SnapEq (g : ℚ) (p q : Pt) : Prop :=
  snapToGrid p.x g = snapToGrid q.x g ∧ snapToGrid p.y g = snapToGrid q.y g

theorem snapToGrid_idem (g v : ℚ) : snapToGrid (snapToGrid v g) g = snapToGrid v g := by
  rcases le_or_lt g 0 with hg | hg
  · simp [snapToGrid, hg]
  · exact snapToGrid_of_onGrid g _ hg (snapToGrid_onGrid g v hg)

theorem snapEq_snapPt (g : ℚ) (p : Pt) : SnapEq g (snapPt g p) p :=
  ⟨snapToGrid_idem g p.x, snapToGrid_idem g p.y⟩

theorem forall₂_snapEq_map (g : ℚ) :
    ∀ l : List Pt, List.Forall₂ (SnapEq g) (l.map (snapPt g)) l
  | [] => List.Forall₂.nil
  | p :: rest => List.Forall₂.cons (snapEq_snapPt g p) (forall₂_snapEq_map g rest)

theorem orthoLoop_snapEq (mode : RouteMode) (g : ℚ)
    {l₁ l₂ : List Pt} (h : List.Forall₂ (SnapEq g) l₁ l₂) :
    ∀ {prev₁ prev₂ : Pt}, SnapEq g prev₁ prev₂ → ∀ i : ℕ,
      List.Forall₂ (SnapEq g) (orthoLoop mode prev₁ i l₁) (orthoLoop mode prev₂ i l₂) := by
  induction h with
  | nil => intro _ _ _ _; exact List.Forall₂.nil
  | cons hp hrest ih =>
    intro prev₁ prev₂ hprev i
    rename_i p₁ p₂ r₁ r₂
    have hp' : SnapEq g
        (if wantH mode i then { p₁ with y := prev₁.y } else { p₁ with x := prev₁.x })
        (if wantH mode i then { p₂ with y := prev₂.y } else { p₂ with x := prev₂.x }) := by
      by_cases hw : wantH mode i = true <;> simp_all [SnapEq]
    exact List.Forall₂.cons hp' (ih hp' (i + 1))

theorem adjustLast_snapEq (b : Pt) (w : Bool) (g : ℚ) :
    ∀ (l₁ l₂ : List Pt), List.Forall₂ (SnapEq g) l₁ l₂ →
      List.Forall₂ (SnapEq g) (adjustLast b w l₁) (adjustLast b w l₂)
  | [], [], _ => List.Forall₂.nil
  | [p₁], [p₂], h => by
    have hp := (List.forall₂_cons.mp h).1
    have hp' : SnapEq g (if w then { p₁ with y := b.y } else { p₁ with x := b.x })
        (if w then { p₂ with y := b.y } else { p₂ with x := b.x }) := by
      cases w <;> simp_all [SnapEq]
    exact List.Forall₂.cons hp' List.Forall₂.nil
  | p₁ :: q₁ :: r₁, p₂ :: q₂ :: r₂, h => by
    obtain ⟨hp, hrest⟩ := List.forall₂_cons.mp h
    exact List.Forall₂.cons hp (adjustLast_snapEq b w g (q₁ :: r₁) (q₂ :: r₂) hrest)
  | [], _ :: _, h => absurd h (by simp)
  | _ :: _, [], h => absurd h (by simp)
  | [_], _ :: _ :: _, h => by
    have := h.length_eq
    simp at this
  | _ :: _ :: _, [_], h => by
    have := h.length_eq
    simp at this

theorem orthogonalizeRoute_snapEq (a b : Pt) (mode : RouteMode) (g : ℚ)
    {l₁ l₂ : List Pt} (h : List.Forall₂ (SnapEq g) l₁ l₂) :
    List.Forall₂ (SnapEq g) (orthogonalizeRoute a b l₁ mode) (orthogonalizeRoute a b l₂ mode) := by
  unfold orthogonalizeRoute
  rw [h.length_eq]
  exact adjustLast_snapEq b _ g _ _ (orthoLoop_snapEq mode g h ⟨rfl, rfl⟩ 0)

theorem map_snapPt_eq_of_snapEq (g : ℚ)
    {l₁ l₂ : List Pt} (h : List.Forall₂ (SnapEq g) l₁ l₂) :
    l₁.map (snapPt g) = l₂.map (snapPt g) := by
  induction h with
  | nil => rfl
  | cons hp hrest ih =>
    rename_i p₁ p₂ r₁ r₂
    have hhead : snapPt g p₁ = snapPt g p₂ := by
      obtain ⟨hx, hy⟩ := hp
      simp [snapPt, hx, hy]
    simp only [List.map_cons, hhead, ih]

/-- Snapping the orthogonalization of an already-snapped orthogonalized
list gives back the snapped orthogonalized list. -/
theorem snap_ortho_snap_ortho (a b : Pt) (l : List Pt) (mode : RouteMode) (g : ℚ) :
    (orthogonalizeRoute a b ((orthogonalizeRoute a b l mode).map (snapPt g)) mode).map (snapPt g) =
      (orthogonalizeRoute a b l mode).map (snapPt g) := by
  have h1 : List.Forall₂ (SnapEq g) ((orthogonalizeRoute a b l mode).map (snapPt g))
      (orthogonalizeRoute a b l mode) := forall₂_snapEq_map g _
  have h2 := orthogonalizeRoute_snapEq a b mode g h1
  rw [orthogonalizeRoute_idem a b l mode] at h2
  exact map_snapPt_eq_of_snapEq g h2

/-! ## Claim theorems -/

/-- C2: the orthogonalizer is idempotent — for every pair of endpoints
`a`, `b`, every bend list and every route mode, applying
`orthogonalizeRoute` to its own output (with the same `a`, `b`, `mode`)
returns that output unchanged. -/
theorem claim_C2_orthogonalize_idempotent (a b : Pt) (bends : List Pt) (mode : RouteMode) :
    orthogonalizeRoute a b (orthogonalizeRoute a b bends mode) mode =
      orthogonalizeRoute a b bends mode :=
  orthogonalizeRoute_idem a b bends mode

/-- C10: `generateRouteWithBends` clamps its count to
`n = max(0, floor(bendCount))`; the output has length `n` when `n ≥ 1`,
and for `n = 0` has length `0` when the endpoints are aligned within
`1e-6` and length `1` otherwise; `orthogonalizeRoute` always preserves
the length of the bend list it is given. -/
theorem claim_C10_generator_lengths (a b : Pt) (grid : ℚ) (mode : RouteMode)
    (bendCount : ℚ) (bends : List Pt) :
    (orthogonalizeRoute a b bends mode).length = bends.length ∧
    (generateRouteWithBends a b grid mode bendCount).length =
      (if (max 0 ⌊bendCount⌋).toNat = 0 then (if alignedEnds a b then 0 else 1)
       else (max 0 ⌊bendCount⌋).toNat) :=
  ⟨orthogonalizeRoute_length a b bends mode,
    generateRouteWithBends_length a b grid mode bendCount⟩

/-- C1 counterexample: with the off-grid endpoint `a = (1/2, 1/2)`,
`b = (100, 100)`, grid `1`, mode `H` and bend count `1`, the generated
route is `[(100, 1)]` and the polyline step from `(1/2, 1/2)` to
`(100, 1)` differs in *both* coordinates, so the claimed invariant
(every consecutive pair differs in exactly one coordinate) is false for
this input. -/
theorem claim_C1_counterexample :
    chainB exactlyOneDiffB ⟨1/2, 1/2⟩
      (generateRouteWithBends ⟨1/2, 1/2⟩ ⟨100, 100⟩ 1 .H 1) ⟨100, 100⟩ = false := by
  norm_num [generateRouteWithBends, alignedEnds, seedBends, orthogonalizeRoute, orthoLoop,
    adjustLast, snapPt, wantH, snapToGrid, round_eq, List.range_succ, chainB, exactlyOneDiffB,
    show ((1:ℤ)).toNat = 1 from rfl]

/-- C1 amended: provided the grid unit is at least the `1e-6` alignment
tolerance and both endpoints lie on the grid, the full polyline
`[a, ...generateRouteWithBends(a,b,grid,mode,n), b]` is axis-aligned:
every consecutive pair agrees in at least one coordinate (exactly-one
fails only for degenerate zero-length segments, and off-grid endpoints
break alignment outright, as the counterexample shows). -/
theorem claim_C1_amended (a b : Pt) (grid : ℚ) (mode : RouteMode) (bendCount : ℚ)
    (hg : 1 / 1000000 ≤ grid) (ha : OnGridPt grid a) (hb : OnGridPt grid b) :
    chainB alignedB a (generateRouteWithBends a b grid mode bendCount) b = true := by
  have hg0 : 0 < grid := lt_of_lt_of_le (by norm_num) hg
  unfold generateRouteWithBends
  by_cases hn : (max 0 ⌊bendCount⌋).toNat = 0
  · rw [hn]
    by_cases hal : alignedEnds a b = true
    · simp only [if_pos rfl, hal, ite_true]
      have : a.x = b.x ∨ a.y = b.y := by
        unfold alignedEnds at hal
        rcases Bool.or_eq_true_iff.mp hal with h | h
        · left
          exact onGrid_close_eq grid a.x b.x hg ha.1 hb.1 (by simpa using h)
        · right
          exact onGrid_close_eq grid a.y b.y hg ha.2 hb.2 (by simpa using h)
      rcases this with h | h <;> simp [chainB, alignedB, h]
    · have hal' : alignedEnds a b = false := by simpa using hal
      cases mode with
      | H =>
        simp only [if_pos rfl, hal', ite_false, Bool.false_eq_true, reduceIte]
        rw [snapToGrid_of_onGrid grid b.x hg0 hb.1, snapToGrid_of_onGrid grid a.y hg0 ha.2]
        simp [chainB, alignedB]
      | V =>
        simp only [if_pos rfl, hal', ite_false, Bool.false_eq_true, reduceIte]
        rw [snapToGrid_of_onGrid grid a.x hg0 ha.1, snapToGrid_of_onGrid grid b.y hg0 hb.2]
        simp [chainB, alignedB]
  · simp only [if_neg hn]
    set n := (max 0 ⌊bendCount⌋).toNat with hn'
    set O := orthogonalizeRoute a b (seedBends a b grid mode n) mode with hO
    have hOgrid : ∀ p ∈ O, OnGridPt grid p :=
      orthogonalizeRoute_onGrid a b _ mode grid ha hb (seedBends_onGrid a b grid mode n hg0)
    rw [map_snapPt_of_onGrid grid hg0 O hOgrid]
    have hlen : O.length = n := by
      rw [hO, orthogonalizeRoute_length, seedBends_length]
    have hne : O ≠ [] := by
      intro h
      rw [h] at hlen
      simp at hlen
      omega
    have hlast : lastOKB b (wantH mode (0 + O.length)) O = true := by
      rw [Nat.zero_add, hlen, hO]
      have := orthogonalizeRoute_lastOK a b (seedBends a b grid mode n) mode
      rwa [seedBends_length] at this
    exact consistent_lastOK_chain mode b O 0 a hne
      (hO ▸ orthogonalizeRoute_consistent a b (seedBends a b grid mode n) mode) hlast

/-- C1 amended, witnessed at `a = (0,0)`, `b = (100,40)`, grid `20`,
mode `H`, two bends. -/
theorem claim_C1_amended_witness :
    (1 / 1000000 : ℚ) ≤ 20 ∧
    chainB alignedB ⟨0, 0⟩ (generateRouteWithBends ⟨0, 0⟩ ⟨100, 40⟩ 20 .H 2) ⟨100, 40⟩ = true :=
  ⟨by norm_num,
    claim_C1_amended ⟨0, 0⟩ ⟨100, 40⟩ 20 .H 2 (by norm_num)
      ⟨⟨0, by norm_num⟩, ⟨0, by norm_num⟩⟩ ⟨⟨5, by norm_num⟩, ⟨2, by norm_num⟩⟩⟩

theorem clamp_bounds (n lo hi : ℚ) (h : lo ≤ hi) :
    lo ≤ clamp n lo hi ∧ clamp n lo hi ≤ hi :=
  ⟨le_max_left lo _, max_le h (min_le_left hi n)⟩

/-- C7: cursor anchoring of the wheel zoom — for every starting view
state with zoom in `[0.3, 2.5]` and every wheel event (any cursor point
and any positive zoom factor, i.e. any value of
`exp(−deltaY·0.0015)`), mapping the world point that was under the
cursor before the event through `worldToScreen` with the updated pan and
zoom returns the cursor point exactly (the embedding is exact rational
arithmetic, so the `1e-6` float tolerance is not needed). -/
theorem claim_C7_wheel_anchoring (st : ViewState) (e : WheelEvent)
    (hlo : ZOOM_MIN ≤ st.zoom) (hhi : st.zoom ≤ ZOOM_MAX) (hf : 0 < e.factor) :
    worldToScreen (onWheel st e).pan (onWheel st e).zoom
      (screenToWorld st.pan st.zoom e.sx e.sy) = ⟨e.sx, e.sy⟩ := by
  have hz : st.zoom ≠ 0 := by
    have : (0 : ℚ) < 3 / 10 := by norm_num
    exact ne_of_gt (lt_of_lt_of_le this hlo)
  have key : st.zoom * (clamp (st.zoom * e.factor) ZOOM_MIN ZOOM_MAX / st.zoom)
      = clamp (st.zoom * e.factor) ZOOM_MIN ZOOM_MAX := by
    rw [mul_comm, div_mul_cancel₀ _ hz]
  simp only [onWheel, worldToScreen, screenToWorld, key, Pt.mk.injEq]
  constructor <;> ring

/-- C7 witnessed at zoom 1, pan `(0,0)`, cursor `(500,300)`, factor 2. -/
theorem claim_C7_wheel_anchoring_witness :
    ZOOM_MIN ≤ (1 : ℚ) ∧ (1 : ℚ) ≤ ZOOM_MAX ∧ (0 : ℚ) < 2 ∧
    worldToScreen (onWheel ⟨⟨0, 0⟩, 1⟩ ⟨500, 300, 2⟩).pan (onWheel ⟨⟨0, 0⟩, 1⟩ ⟨500, 300, 2⟩).zoom
      (screenToWorld ⟨0, 0⟩ 1 500 300) = ⟨500, 300⟩ :=
  ⟨by norm_num [ZOOM_MIN], by norm_num [ZOOM_MAX], by norm_num,
    claim_C7_wheel_anchoring ⟨⟨0, 0⟩, 1⟩ ⟨500, 300, 2⟩
      (by norm_num [ZOOM_MIN]) (by norm_num [ZOOM_MAX]) (by norm_num)⟩

/-- C8: starting from any zoom in `[0.3, 2.5]`, after any finite
sequence of wheel events (arbitrary cursor points and arbitrary rational
factors, covering every `exp(−deltaY·0.0015)`), the zoom is still in
`[0.3, 2.5]`. -/
theorem claim_C8_zoom_bounds (st : ViewState) (es : List WheelEvent)
    (hlo : ZOOM_MIN ≤ st.zoom) (hhi : st.zoom ≤ ZOOM_MAX) :
    ZOOM_MIN ≤ (wheelEvents st es).zoom ∧ (wheelEvents st es).zoom ≤ ZOOM_MAX := by
  induction es generalizing st with
  | nil => exact ⟨hlo, hhi⟩
  | cons e rest ih =>
    have hstep : wheelEvents st (e :: rest) = wheelEvents (onWheel st e) rest := rfl
    have hbounds := clamp_bounds (st.zoom * e.factor) ZOOM_MIN ZOOM_MAX
      (by norm_num [ZOOM_MIN, ZOOM_MAX])
    rw [hstep]
    exact ih (onWheel st e) hbounds.1 hbounds.2

/-- C8 witnessed at zoom 1 and two wheel events (one zooming far in, one
far out). -/
theorem claim_C8_zoom_bounds_witness :
    ZOOM_MIN ≤ (1 : ℚ) ∧ (1 : ℚ) ≤ ZOOM_MAX ∧
    ZOOM_MIN ≤ (wheelEvents ⟨⟨0, 0⟩, 1⟩ [⟨500, 300, 100⟩, ⟨0, 0, 1/100⟩]).zoom ∧
    (wheelEvents ⟨⟨0, 0⟩, 1⟩ [⟨500, 300, 100⟩, ⟨0, 0, 1/100⟩]).zoom ≤ ZOOM_MAX := by
  have h := claim_C8_zoom_bounds ⟨⟨0, 0⟩, 1⟩ [⟨500, 300, 100⟩, ⟨0, 0, 1/100⟩]
    (by norm_num [ZOOM_MIN]) (by norm_num [ZOOM_MAX])
  exact ⟨by norm_num [ZOOM_MIN], by norm_num [ZOOM_MAX], h.1, h.2⟩

/-- The generator at count 2 is the snapped orthogonalization of its
seeds. -/
theorem generateRouteWithBends_two (a b : Pt) (grid : ℚ) (mode : RouteMode) :
    generateRouteWithBends a b grid mode 2 =
      (orthogonalizeRoute a b (seedBends a b grid mode 2) mode).map (snapPt grid) := by
  unfold generateRouteWithBends
  norm_num [show ((2 : ℤ)).toNat = 2 from rfl]

/-- C6: `ensureRoutePersisted` is a no-op on a non-empty stored route;
with the callback present, an empty route and both endpoints resolving,
it invokes the callback exactly once (the `some` result; the embedding
can produce at most one call) with exactly the point list the Route
Generator derives for the connection — default bend count 2, stored
`routeMode` defaulting to H via `getConnMode`; and with the connection
or an endpoint unresolvable it never invokes the callback. -/
theorem claim_C6_ensure_route_persisted (hasCallback : Bool) (conn : Option Conn)
    (aRes bRes : Option Pt) (grid : ℚ) :
    (∀ c, conn = some c → c.route ≠ [] →
      ensureRoutePersisted hasCallback conn aRes bRes grid = none) ∧
    (∀ c a b, hasCallback = true → conn = some c → c.route = [] →
      aRes = some a → bRes = some b →
      ensureRoutePersisted hasCallback conn aRes bRes grid =
        some (generateRouteWithBends a b grid (getConnMode c) 2)) ∧
    ((conn = none ∨ aRes = none ∨ bRes = none) →
      ensureRoutePersisted hasCallback conn aRes bRes grid = none) := by
  refine ⟨?_, ?_, ?_⟩
  · intro c hc hroute
    subst hc
    have hlen : c.route.length > 0 := List.length_pos.mpr hroute
    cases hasCallback <;> simp [ensureRoutePersisted, hlen]
  · intro c a b hcb hc hroute ha hb
    subst hcb
    subst hc
    subst ha
    subst hb
    simp only [ensureRoutePersisted, polyPointsForConn, hroute, List.length_nil, gt_iff_lt,
      lt_self_iff_false, if_false, Bool.not_true, Bool.false_eq_true, ite_false,
      Option.some_inj]
    rw [generateRouteWithBends_two a b grid (getConnMode c)]
    exact snap_ortho_snap_ortho a b (seedBends a b grid (getConnMode c) 2) (getConnMode c)
      grid
  · intro h
    rcases h with rfl | rfl | rfl
    · cases hasCallback <;> simp [ensureRoutePersisted]
    · cases hasCallback <;> cases conn <;>
        simp [ensureRoutePersisted, polyPointsForConn]
    · cases hasCallback <;> cases conn <;> cases aRes <;>
        simp [ensureRoutePersisted, polyPointsForConn]

/-- C6 witnessed: empty route, both endpoints resolved, callback
present: the persisted list is exactly the generator output. -/
theorem claim_C6_ensure_route_persisted_witness :
    ensureRoutePersisted true (some ⟨[], none⟩) (some ⟨0, 0⟩) (some ⟨100, 40⟩) 20 =
      some (generateRouteWithBends ⟨0, 0⟩ ⟨100, 40⟩ 20 (getConnMode ⟨[], none⟩) 2) :=
  (claim_C6_ensure_route_persisted true (some ⟨[], none⟩) (some ⟨0, 0⟩) (some ⟨100, 40⟩)
    20).2.1 ⟨[], none⟩ ⟨0, 0⟩ ⟨100, 40⟩ rfl rfl rfl rfl rfl

theorem setX_length (v : ℚ) : ∀ (k : ℕ) (l : List Pt), (setX k v l).length = l.length
  | 0, [] => rfl
  | _ + 1, [] => rfl
  | 0, _ :: _ => rfl
  | k + 1, _ :: rest => by
    simp only [setX, List.length_cons]
    exact congrArg (· + 1) (setX_length v k rest)

/-- `moveSegment` never changes the number of bends: the persisted list
has exactly the base list's length. -/
theorem moveSegment_length (aW bW : Pt) (mode : RouteMode) (grid : ℚ) (si : ℕ)
    (axis : RouteMode) (d : ℚ) (base : List Pt) :
    (moveSegment aW bW mode grid si axis d base).length = base.length := by
  unfold moveSegment
  cases axis <;>
    cases haB : ptIndexToBendIndex base.length si <;>
    cases hbB : ptIndexToBendIndex base.length (si + 1) <;>
      simp [haB, hbB, orthogonalizeRoute_length, setY_length, setX_length]

/-- C3: dragging a 0-bend straight connection.  The spec requires the
delta to be absorbed by synthesizing the single zero-bend-branch bend
before assigning; the code computes the shared coordinate
(`info.aW.y + delta`, the ternary's both-`null` fallback) but every
assignment is guarded by `aB !== null` / `bB !== null`, so nothing is
assigned and the empty list is persisted: here, on the straight
connection `(0,0)–(100,0)` with base route `[]`, segment 0 dragged along
H by 40 on grid 20 persists `[]` — no bend carries the delta. -/
theorem claim_C3_zero_bend_drag_drops_delta :
    moveSegment ⟨0, 0⟩ ⟨100, 0⟩ .H 20 0 .H 40 [] = [] := rfl

/-- C4 counterexample: a connection with the persisted (hence Explicit)
1-bend route `[(50, 0)]` between the aligned live endpoints `(0,0)` and
`(100,0)`: `removeBend` calls `setBendCount(max(0, 1−1)) = 0`, the
generator's zero-bend aligned branch returns `[]`, and the empty list is
persisted — a reachable Explicit→Implicit transition, contradicting the
claim. -/
theorem claim_C4_counterexample :
    removeBend ⟨0, 0⟩ ⟨100, 0⟩ 20 .H [⟨50, 0⟩] = [] := by
  norm_num [removeBend, setBendCount, generateRouteWithBends, alignedEnds,
    show ((0 : ℤ)).toNat = 0 from rfl]

/-- C4 amended: once a non-empty route is persisted, the operations keep
it non-empty *except* through `setBendCount` (reached from `removeBend`)
when the clamped count is 0 and the endpoints are aligned within `1e-6`,
which persists `[]` and reverts the connection to Implicit (and
`moveSegment` handed an empty base keeps it empty).  Positively: any
`setBendCount` with clamped count ≥ 1 persists a non-empty list, any
`setBendCount` on non-aligned endpoints persists a non-empty list,
`moveSegment` on a non-empty base persists a non-empty list, and
`ensureRoutePersisted` only ever persists a (2-bend) non-empty list. -/
theorem claim_C4_amended :
    (∀ (a b : Pt) (grid : ℚ) (mode : RouteMode) (count : ℚ), 1 ≤ ⌊count⌋ →
      setBendCount a b grid mode count ≠ []) ∧
    (∀ (a b : Pt) (grid : ℚ) (mode : RouteMode) (count : ℚ), alignedEnds a b = false →
      setBendCount a b grid mode count ≠ []) ∧
    (∀ (aW bW : Pt) (mode : RouteMode) (grid : ℚ) (si : ℕ) (axis : RouteMode) (d : ℚ)
      (base : List Pt), base ≠ [] →
      moveSegment aW bW mode grid si axis d base ≠ []) ∧
    (∀ (hasCallback : Bool) (conn : Option Conn) (aRes bRes : Option Pt) (grid : ℚ)
      (r : List Pt),
      ensureRoutePersisted hasCallback conn aRes bRes grid = some r → r ≠ []) := by
  refine ⟨?_, ?_, ?_, ?_⟩
  · intro a b grid mode count h hnil
    have h2 : (1 : ℤ) ≤ max 0 ⌊count⌋ := le_max_of_le_right h
    have hn : (max 0 ⌊count⌋).toNat ≠ 0 := by omega
    have hlen : (generateRouteWithBends a b grid mode count).length =
        (max 0 ⌊count⌋).toNat := by
      rw [generateRouteWithBends_length, if_neg hn]
    unfold setBendCount at hnil
    rw [hnil] at hlen
    simp at hlen
    omega
  · intro a b grid mode count h hnil
    have hlen := generateRouteWithBends_length a b grid mode count
    rw [h] at hlen
    unfold setBendCount at hnil
    rw [hnil] at hlen
    by_cases hn : (max 0 ⌊count⌋).toNat = 0
    · simp [hn] at hlen
    · rw [if_neg hn] at hlen
      simp only [List.length_nil] at hlen
      omega
  · intro aW bW mode grid si axis d base hbase hnil
    have hlen := moveSegment_length aW bW mode grid si axis d base
    rw [hnil] at hlen
    simp only [List.length_nil] at hlen
    exact hbase (List.length_eq_zero.mp hlen.symm)
  · intro hasCallback conn aRes bRes grid r h
    cases hasCallback with
    | false => simp [ensureRoutePersisted] at h
    | true =>
      cases conn with
      | none => simp [ensureRoutePersisted] at h
      | some c =>
        by_cases hlr : c.route.length > 0
        · simp [ensureRoutePersisted, hlr] at h
        · cases hpp : polyPointsForConn c aRes bRes grid with
          | none => simp [ensureRoutePersisted, hlr, hpp] at h
          | some info =>
            have hr : r = info.bends.map (snapPt grid) := by
              simp [ensureRoutePersisted, hlr, hpp] at h
              exact h.symm
            obtain ⟨a, b, -, -, -, -, -, hbends, -⟩ :=
              polyPointsForConn_some c aRes bRes grid info hpp
            have hlen : r.length = 2 := by
              rw [hr, List.length_map, hbends, orthogonalizeRoute_length, if_neg hlr,
                generateRouteWithBends_length]
              norm_num [show ((2 : ℤ)).toNat = 2 from rfl]
            intro hnil
            rw [hnil] at hlen
            simp at hlen

/-- C4 amended, witnessed: one instance of each positive conjunct. -/
theorem claim_C4_amended_witness :
    ((1 : ℤ) ≤ ⌊(1 : ℚ)⌋ ∧ setBendCount ⟨0, 0⟩ ⟨100, 0⟩ 20 .H 1 ≠ []) ∧
    (alignedEnds ⟨0, 0⟩ ⟨100, 40⟩ = false ∧ setBendCount ⟨0, 0⟩ ⟨100, 40⟩ 20 .H 0 ≠ []) ∧
    (([⟨50, 0⟩] : List Pt) ≠ [] ∧ moveSegment ⟨0, 0⟩ ⟨100, 0⟩ .H 20 1 .H 40 [⟨50, 0⟩] ≠ []) ∧
    (ensureRoutePersisted true (some ⟨[], none⟩) (some ⟨0, 0⟩) (some ⟨100, 40⟩) 20 =
        some [⟨40, 0⟩, ⟨40, 40⟩] ∧ ([⟨40, 0⟩, ⟨40, 40⟩] : List Pt) ≠ []) := by
  have hens : ensureRoutePersisted true (some ⟨[], none⟩) (some ⟨0, 0⟩) (some ⟨100, 40⟩) 20 =
      some [⟨40, 0⟩, ⟨40, 40⟩] := by
    norm_num [ensureRoutePersisted, polyPointsForConn, getConnMode, generateRouteWithBends,
      alignedEnds, seedBends, orthogonalizeRoute, orthoLoop, adjustLast, snapPt, wantH,
      snapToGrid, round_eq, List.range_succ, show ((2 : ℤ)).toNat = 2 from rfl]
  refine ⟨⟨by norm_num, claim_C4_amended.1 ⟨0, 0⟩ ⟨100, 0⟩ 20 .H 1 (by norm_num)⟩,
    ⟨by norm_num [alignedEnds], claim_C4_amended.2.1 ⟨0, 0⟩ ⟨100, 40⟩ 20 .H 0
      (by norm_num [alignedEnds])⟩,
    ⟨by simp, claim_C4_amended.2.2.1 ⟨0, 0⟩ ⟨100, 0⟩ .H 20 1 .H 40 [⟨50, 0⟩] (by simp)⟩,
    hens, claim_C4_amended.2.2.2 true (some ⟨[], none⟩) (some ⟨0, 0⟩) (some ⟨100, 40⟩) 20
      [⟨40, 0⟩, ⟨40, 40⟩] hens⟩

/-- C5 counterexample: `a = (0,0)`, `b = (90,50)`, grid 10, mode H, base
route `[(40,0), (40,30), (90,30)]` (which satisfies the route invariant
and is on-grid).  Dragging polyline segment 1 — a *vertical* segment —
with axis H and delta 20: the bends adjacent to segment 1 are bends 0
and 1, yet the persisted route `[(40,0), (40,20), (90,20)]` changes the
`y` of the non-adjacent bend 2 (from 30 to 20, propagated by the
re-orthogonalization) while leaving adjacent bend 0 unchanged, so the
claimed frame property is false for this call. -/
theorem claim_C5_counterexample :
    ((moveSegment ⟨0, 0⟩ ⟨90, 50⟩ .H 10 1 .H 20
        [⟨40, 0⟩, ⟨40, 30⟩, ⟨90, 30⟩]).getD 2 default).y ≠
      ((([⟨40, 0⟩, ⟨40, 30⟩, ⟨90, 30⟩] : List Pt)).getD 2 default).y := by
  norm_num [moveSegment, ptIndexToBendIndex, setY, orthogonalizeRoute, orthoLoop, adjustLast,
    snapPt, wantH, snapToGrid, round_eq]

/-- The frame property of an interior drag whose axis H matches the
dragged segment's parity axis. -/
theorem moveSegment_frame_H (aW bW : Pt) (mode : RouteMode) (grid d : ℚ) (k : ℕ)
    (base : List Pt)
    (hg : 0 < grid)
    (hk : k + 2 ≤ base.length)
    (hw : wantH mode (k + 1) = true)
    (hc : consistentB mode 0 aW base = true)
    (hl : lastOKB bW (wantH mode base.length) base = true)
    (hbase : ∀ p ∈ base, OnGridPt grid p) :
    moveSegment aW bW mode grid (k + 1) .H d base =
      setY (k + 1) (snapToGrid ((base.getD k default).y + d) grid)
        (setY k (snapToGrid ((base.getD k default).y + d) grid) base) := by
  set ny := snapToGrid ((base.getD k default).y + d) grid with hny
  have haB : ptIndexToBendIndex base.length (k + 1) = some k := by
    rw [ptIndexToBendIndex_some base.length (k + 1) (by omega) (by omega)]
    simp
  have hbB : ptIndexToBendIndex base.length (k + 1 + 1) = some (k + 1) := by
    rw [ptIndexToBendIndex_some base.length (k + 2) (by omega) (by omega)]
    simp
  have hmod : moveSegment aW bW mode grid (k + 1) .H d base =
      (orthogonalizeRoute aW bW (setY (k + 1) ny (setY k ny base)) mode).map
        (snapPt grid) := by
    simp only [moveSegment, haB, hbB]
  set modified := setY (k + 1) ny (setY k ny base) with hmodified
  have hcons : consistentB mode 0 aW modified = true :=
    consistentB_setY2 mode ny k base 0 aW hc (by simpa using hw) (by omega)
  have hlen2 : modified.length = base.length := by
    rw [hmodified, setY_length, setY_length]
  have hlast : lastOKB bW (wantH mode modified.length) modified = true := by
    rw [hlen2]
    rcases Nat.lt_or_ge (k + 2) base.length with hlt | hge
    · have h1 := lastOKB_setY_lt bW ny (wantH mode base.length) base k (by omega) hl
      have h2 := lastOKB_setY_lt bW ny (wantH mode base.length) (setY k ny base) (k + 1)
        (by rw [setY_length]; omega) h1
      exact h2
    · have heq : base.length = k + 2 := by omega
      have hwf : wantH mode base.length = false := by
        rw [heq, show k + 2 = (k + 1) + 1 from rfl, wantH_succ, hw]
        rfl
      rw [hwf]
      rw [hwf] at hl
      exact lastOKB_setY_false bW ny (setY k ny base) (k + 1)
        (lastOKB_setY_false bW ny base k hl)
  have hfix : orthogonalizeRoute aW bW modified mode = modified :=
    orthogonalizeRoute_fix aW bW modified mode hcons hlast
  have hongrid : ∀ p ∈ modified, OnGridPt grid p := by
    have hny' : OnGrid grid ny := hny ▸ snapToGrid_onGrid grid _ hg
    exact setY_onGrid grid ny hny' (setY k ny base) (k + 1)
      (setY_onGrid grid ny hny' base k hbase)
  have hsnap : modified.map (snapPt grid) = modified :=
    map_snapPt_of_onGrid grid hg modified hongrid
  rw [hmod, hfix, hsnap]

/-- Mirror of `consistentB_setY2` for a vertical interior segment:
writing `nx` into the `x` of two adjacent bends whose connecting segment
wants to be vertical keeps the list consistent. -/
theorem consistentB_setX2 (mode : RouteMode) (nx : ℚ) :
    ∀ (k : ℕ) (l : List Pt) (i : ℕ) (prev : Pt),
      consistentB mode i prev l = true →
      wantH mode (i + k + 1) = false →
      k + 1 < l.length →
      consistentB mode i prev (setX (k + 1) nx (setX k nx l)) = true
  | 0, p :: q :: rest, i, prev, hc, hw, _ => by
    have hw0 : wantH mode i = true := by
      have := wantH_succ mode i
      rw [show i + 0 + 1 = i + 1 from rfl] at hw
      rw [hw] at this
      simpa using this.symm
    rw [consistentB_cons, Bool.and_eq_true] at hc
    obtain ⟨h1, hc2⟩ := hc
    rw [consistentB_cons, Bool.and_eq_true] at hc2
    obtain ⟨h2, h3⟩ := hc2
    show consistentB mode i prev
      ({ p with x := nx } :: { q with x := nx } :: rest) = true
    rw [consistentB_cons, Bool.and_eq_true]
    constructor
    · simpa [segOkB, hw0] using h1
    · rw [consistentB_cons, Bool.and_eq_true]
      refine ⟨?_, ?_⟩
      · simp [segOkB, show wantH mode (i + 1) = false by simpa using hw]
      · refine consistentB_congr_prev mode rest (i + 2) q { q with x := nx } ?_ ?_ h3
        · intro hcon
          have : wantH mode (i + 2) = true := by
            rw [wantH_succ]
            simp [show wantH mode (i + 1) = false by simpa using hw]
          rw [this] at hcon
          cases hcon
        · intro _; rfl
  | 0, [], _, _, _, _, hlen => by simp at hlen
  | 0, [_], _, _, _, _, hlen => by simp at hlen
  | k + 1, [], _, _, _, _, hlen => by simp at hlen
  | k + 1, p :: rest, i, prev, hc, hw, hlen => by
    rw [consistentB_cons, Bool.and_eq_true] at hc
    have hrec := consistentB_setX2 mode nx k rest (i + 1) p hc.2
      (by rw [show i + 1 + k + 1 = i + (k + 1) + 1 by omega]; exact hw)
      (by simpa [Nat.lt_succ_iff] using Nat.lt_of_succ_lt_succ (by simpa using hlen))
    show consistentB mode i prev (p :: setX (k + 1) nx (setX k nx rest)) = true
    rw [consistentB_cons, Bool.and_eq_true]
    exact ⟨hc.1, hrec⟩

/-- Writing into an `x` never disturbs a `y`-type trailing constraint. -/
theorem lastOKB_setX_true (b : Pt) (v : ℚ) :
    ∀ (l : List Pt) (m : ℕ), lastOKB b true l = true →
      lastOKB b true (setX m v l) = true
  | [], 0, _ => rfl
  | [], _ + 1, _ => rfl
  | [p], 0, h => by simpa [setX, lastOKB] using h
  | [p], m + 1, h => by simpa [setX, lastOKB] using h
  | p :: q :: rest, 0, h => by
    simpa [setX, lastOKB] using h
  | p :: q :: rest, m + 1, h => by
    show lastOKB b true (p :: setX m v (q :: rest)) = true
    have hrec := lastOKB_setX_true b v (q :: rest) m h
    cases hsy : setX m v (q :: rest) with
    | nil =>
      have := setX_length v m (q :: rest)
      rw [hsy] at this
      simp at this
    | cons r rs => simpa [lastOKB, hsy] using (hsy ▸ hrec)

/-- Writing an `x` strictly before the last element never disturbs the
trailing constraint. -/
theorem lastOKB_setX_lt (b : Pt) (v : ℚ) (w : Bool) :
    ∀ (l : List Pt) (m : ℕ), m + 1 < l.length → lastOKB b w l = true →
      lastOKB b w (setX m v l) = true
  | [], _, hm, _ => by simp at hm
  | [p], m, hm, _ => by simp at hm
  | p :: q :: rest, 0, _, h => by
    simpa [setX, lastOKB] using h
  | p :: q :: rest, m + 1, hm, h => by
    show lastOKB b w (p :: setX m v (q :: rest)) = true
    have hrec := lastOKB_setX_lt b v w (q :: rest) m
      (by simpa using Nat.lt_of_succ_lt_succ (by simpa using hm)) h
    cases hsy : setX m v (q :: rest) with
    | nil =>
      have := setX_length v m (q :: rest)
      rw [hsy] at this
      simp at this
    | cons r rs => simpa [lastOKB, hsy] using (hsy ▸ hrec)

/-- `setX` preserves grid alignment when the written value is aligned. -/
theorem setX_onGrid (g v : ℚ) (hv : OnGrid g v) :
    ∀ (l : List Pt) (m : ℕ), (∀ p ∈ l, OnGridPt g p) →
      ∀ p ∈ setX m v l, OnGridPt g p
  | [], 0, _ => by simp [setX]
  | [], _ + 1, _ => by simp [setX]
  | p :: rest, 0, hl => by
    intro q hq
    simp only [setX, List.mem_cons] at hq
    rcases hq with rfl | hq
    · exact ⟨hv, (hl p (by simp)).2⟩
    · exact hl q (by simp [hq])
  | p :: rest, m + 1, hl => by
    intro q hq
    simp only [setX, List.mem_cons] at hq
    rcases hq with rfl | hq
    · exact hl q (by simp)
    · exact setX_onGrid g v hv rest m (fun r hr => hl r (by simp [hr])) q hq

/-- The frame property of an interior drag whose axis V matches the
dragged segment's parity axis. -/
theorem moveSegment_frame_V (aW bW : Pt) (mode : RouteMode) (grid d : ℚ) (k : ℕ)
    (base : List Pt)
    (hg : 0 < grid)
    (hk : k + 2 ≤ base.length)
    (hw : wantH mode (k + 1) = false)
    (hc : consistentB mode 0 aW base = true)
    (hl : lastOKB bW (wantH mode base.length) base = true)
    (hbase : ∀ p ∈ base, OnGridPt grid p) :
    moveSegment aW bW mode grid (k + 1) .V d base =
      setX (k + 1) (snapToGrid ((base.getD k default).x + d) grid)
        (setX k (snapToGrid ((base.getD k default).x + d) grid) base) := by
  set nx := snapToGrid ((base.getD k default).x + d) grid with hnx
  have haB : ptIndexToBendIndex base.length (k + 1) = some k := by
    rw [ptIndexToBendIndex_some base.length (k + 1) (by omega) (by omega)]
    simp
  have hbB : ptIndexToBendIndex base.length (k + 1 + 1) = some (k + 1) := by
    rw [ptIndexToBendIndex_some base.length (k + 2) (by omega) (by omega)]
    simp
  have hmod : moveSegment aW bW mode grid (k + 1) .V d base =
      (orthogonalizeRoute aW bW (setX (k + 1) nx (setX k nx base)) mode).map
        (snapPt grid) := by
    simp only [moveSegment, haB, hbB]
  set modified := setX (k + 1) nx (setX k nx base) with hmodified
  have hcons : consistentB mode 0 aW modified = true :=
    consistentB_setX2 mode nx k base 0 aW hc (by simpa using hw) (by omega)
  have hlen2 : modified.length = base.length := by
    rw [hmodified, setX_length, setX_length]
  have hlast : lastOKB bW (wantH mode modified.length) modified = true := by
    rw [hlen2]
    rcases Nat.lt_or_ge (k + 2) base.length with hlt | hge
    · have h1 := lastOKB_setX_lt bW nx (wantH mode base.length) base k (by omega) hl
      have h2 := lastOKB_setX_lt bW nx (wantH mode base.length) (setX k nx base) (k + 1)
        (by rw [setX_length]; omega) h1
      exact h2
    · have heq : base.length = k + 2 := by omega
      have hwt : wantH mode base.length = true := by
        rw [heq, show k + 2 = (k + 1) + 1 from rfl, wantH_succ, hw]
        rfl
      rw [hwt]
      rw [hwt] at hl
      exact lastOKB_setX_true bW nx (setX k nx base) (k + 1)
        (lastOKB_setX_true bW nx base k hl)
  have hfix : orthogonalizeRoute aW bW modified mode = modified :=
    orthogonalizeRoute_fix aW bW modified mode hcons hlast
  have hongrid : ∀ p ∈ modified, OnGridPt grid p := by
    have hnx' : OnGrid grid nx := hnx ▸ snapToGrid_onGrid grid _ hg
    exact setX_onGrid grid nx hnx' (setX k nx base) (k + 1)
      (setX_onGrid grid nx hnx' base k hbase)
  have hsnap : modified.map (snapPt grid) = modified :=
    map_snapPt_of_onGrid grid hg modified hongrid
  rw [hmod, hfix, hsnap]

/-- C5 amended: for an interior drag (`segIndex = k + 1`, both adjacent
polyline indices map to bends, i.e. `k + 2 ≤ base.length`) whose drag
axis matches the dragged segment's parity axis, on a positive grid and a
base list that satisfies the route invariant (alternating-axis
consistency, trailing constraint, bends on grid multiples), the
persisted route changes exactly the coordinate being dragged of the two
adjacent bends `k` and `k+1` — for axis H both `y`s become the multiple
of `grid` nearest to `(base[k].y + d)`, for axis V both `x`s become the
multiple nearest to `(base[k].x + d)` — and every other coordinate of
every bend is unchanged.  (The counterexample shows the restriction to a
matching axis is necessary: a mismatched drag propagates through the
re-orthogonalization to non-adjacent bends.) -/
theorem claim_C5_amended (aW bW : Pt) (mode : RouteMode) (grid d : ℚ) (k : ℕ)
    (base : List Pt)
    (hg : 0 < grid)
    (hk : k + 2 ≤ base.length)
    (hc : consistentB mode 0 aW base = true)
    (hl : lastOKB bW (wantH mode base.length) base = true)
    (hbase : ∀ p ∈ base, OnGridPt grid p) :
    (wantH mode (k + 1) = true →
      moveSegment aW bW mode grid (k + 1) .H d base =
        setY (k + 1) (snapToGrid ((base.getD k default).y + d) grid)
          (setY k (snapToGrid ((base.getD k default).y + d) grid) base)) ∧
    (wantH mode (k + 1) = false →
      moveSegment aW bW mode grid (k + 1) .V d base =
        setX (k + 1) (snapToGrid ((base.getD k default).x + d) grid)
          (setX k (snapToGrid ((base.getD k default).x + d) grid) base)) :=
  ⟨fun hw => moveSegment_frame_H aW bW mode grid d k base hg hk hw hc hl hbase,
    fun hw => moveSegment_frame_V aW bW mode grid d k base hg hk hw hc hl hbase⟩

/-- C5 amended, witnessed: dragging the interior *horizontal* segment 2
of the same polyline by 20 moves exactly bends 1 and 2 to `y = 50`. -/
theorem claim_C5_amended_witness :
    wantH .H 2 = true ∧
    moveSegment ⟨0, 0⟩ ⟨90, 50⟩ .H 10 2 .H 20 [⟨40, 0⟩, ⟨40, 30⟩, ⟨90, 30⟩] =
      setY 2 (snapToGrid ((([⟨40, 0⟩, ⟨40, 30⟩, ⟨90, 30⟩] : List Pt).getD 1 default).y + 20) 10)
        (setY 1 (snapToGrid ((([⟨40, 0⟩, ⟨40, 30⟩, ⟨90, 30⟩] : List Pt).getD 1 default).y + 20) 10)
          [⟨40, 0⟩, ⟨40, 30⟩, ⟨90, 30⟩]) := by
  have hbase : ∀ p ∈ ([⟨40, 0⟩, ⟨40, 30⟩, ⟨90, 30⟩] : List Pt), OnGridPt 10 p := by
    intro p hp
    simp only [List.mem_cons, List.not_mem_nil, or_false] at hp
    rcases hp with rfl | rfl | rfl
    · exact ⟨⟨4, by norm_num⟩, ⟨0, by norm_num⟩⟩
    · exact ⟨⟨4, by norm_num⟩, ⟨3, by norm_num⟩⟩
    · exact ⟨⟨9, by norm_num⟩, ⟨3, by norm_num⟩⟩
  refine ⟨by decide, (claim_C5_amended ⟨0, 0⟩ ⟨90, 50⟩ .H 10 20 1
    [⟨40, 0⟩, ⟨40, 30⟩, ⟨90, 30⟩] (by norm_num) (by norm_num) ?_ ?_ hbase).1 (by decide)⟩
  · norm_num [consistentB, segOkB, wantH]
  · norm_num [lastOKB, wantH]

/-- A resolvable connection always yields at least one polyline segment
(the polyline is `[a, ...bends, b]`, so it has at least 2 points). -/
theorem screenSegs_of_polyPoints (c : Conn) (aRes bRes : Option Pt) (grid : ℚ)
    (pan : Pt) (zoom : ℚ) (info : PolyInfo)
    (hpp : polyPointsForConn c aRes bRes grid = some info) :
    screenSegs info.pts pan zoom ≠ [] ∧
    (screenSegs info.pts pan zoom).length + 1 = info.pts.length := by
  obtain ⟨a, b, -, -, -, -, -, -, hpts⟩ := polyPointsForConn_some c aRes bRes grid info hpp
  have hplen : info.pts.length = info.bends.length + 2 := by
    rw [hpts]
    simp
  have hslen := screenSegs_length info.pts pan zoom
  constructor
  · intro hnil
    rw [hnil] at hslen
    simp at hslen
    omega
  · omega

/-- C9: `pickSegment` returns null exactly when the connection or one of
its endpoints is unresolvable (exactly the situations in which the
polyline would have fewer than 2 points); otherwise it returns an index
`i` with `i + 2 ≤ polylineLength` (i.e. `i ∈ [0, polylineLength − 2]`)
together with that segment's dominant axis, and the chosen segment is
globally closest in squared screen distance with the first-seen segment
winning exact ties (strictly smaller than every earlier segment, `≤`
every segment). -/
theorem claim_C9_pickSegment_spec (conn : Option Conn) (aRes bRes : Option Pt) (grid : ℚ)
    (pan : Pt) (zoom : ℚ) (px py : ℚ) :
    (pickSegment conn aRes bRes grid pan zoom px py = none ↔
      (conn = none ∨ aRes = none ∨ bRes = none)) ∧
    (∀ (c : Conn) (info : PolyInfo) (i : ℕ) (ax : RouteMode),
      conn = some c →
      polyPointsForConn c aRes bRes grid = some info →
      pickSegment conn aRes bRes grid pan zoom px py = some (i, ax) →
      i + 2 ≤ info.pts.length ∧
      ax = segAxis px py ((screenSegs info.pts pan zoom).getD i default) ∧
      (∀ j, j < (screenSegs info.pts pan zoom).length →
        segD2 px py ((screenSegs info.pts pan zoom).getD i default) ≤
          segD2 px py ((screenSegs info.pts pan zoom).getD j default)) ∧
      (∀ j, j < i →
        segD2 px py ((screenSegs info.pts pan zoom).getD i default) <
          segD2 px py ((screenSegs info.pts pan zoom).getD j default))) := by
  constructor
  · cases conn with
    | none => simp [pickSegment]
    | some c =>
      cases hpp : polyPointsForConn c aRes bRes grid with
      | none =>
        have hres : aRes = none ∨ bRes = none := by
          cases aRes with
          | none => exact Or.inl rfl
          | some a =>
            cases bRes with
            | none => exact Or.inr rfl
            | some b => simp [polyPointsForConn] at hpp
        simp only [pickSegment, hpp]
        constructor
        · intro _
          rcases hres with h | h
          · exact Or.inr (Or.inl h)
          · exact Or.inr (Or.inr h)
        · intro _
          trivial
      | some info =>
        obtain ⟨hne, hlen⟩ := screenSegs_of_polyPoints c aRes bRes grid pan zoom info hpp
        obtain ⟨i, hi, heq, -, -⟩ := pickBest_spec px py _ hne
        obtain ⟨a, b, haR, hbR, -, -, -, -, -⟩ :=
          polyPointsForConn_some c aRes bRes grid info hpp
        simp only [pickSegment, hpp, heq]
        simp [haR, hbR]
  · intro c info i ax hconn hpp hpick
    subst hconn
    obtain ⟨hne, hlen⟩ := screenSegs_of_polyPoints c aRes bRes grid pan zoom info hpp
    obtain ⟨i₀, hi₀, heq, hall, hfirst⟩ := pickBest_spec px py _ hne
    simp only [pickSegment, hpp, heq, Option.some_inj, Prod.mk.injEq] at hpick
    obtain ⟨hi_eq, hax⟩ := hpick
    subst hi_eq
    subst hax
    exact ⟨by omega, rfl, hall, hfirst⟩

/-- C9 witnessed on a concrete L-shaped connection and cursor: segment 0
is picked with axis H, and its index is within the polyline bound. -/
theorem claim_C9_pickSegment_spec_witness :
    pickSegment (some ⟨[⟨50, 0⟩], none⟩) (some ⟨0, 0⟩) (some ⟨100, 80⟩) 20 ⟨0, 0⟩ 1 50 10 =
      some (0, .H) ∧
    (0 : ℕ) + 2 ≤ (PolyInfo.mk ⟨0, 0⟩ ⟨100, 80⟩ .H [⟨100, 0⟩]
      [⟨0, 0⟩, ⟨100, 0⟩, ⟨100, 80⟩]).pts.length := by
  have hpp : polyPointsForConn ⟨[⟨50, 0⟩], none⟩ (some ⟨0, 0⟩) (some ⟨100, 80⟩) 20 =
      some (PolyInfo.mk ⟨0, 0⟩ ⟨100, 80⟩ .H [⟨100, 0⟩] [⟨0, 0⟩, ⟨100, 0⟩, ⟨100, 80⟩]) := by
    norm_num [polyPointsForConn, getConnMode, orthogonalizeRoute, orthoLoop, adjustLast, wantH]
  have hpick : pickSegment (some ⟨[⟨50, 0⟩], none⟩) (some ⟨0, 0⟩) (some ⟨100, 80⟩) 20
      ⟨0, 0⟩ 1 50 10 = some (0, .H) := by
    norm_num [pickSegment, hpp, screenSegs, worldToScreen, pickBest, segD2, segAxis,
      segAxisD2, List.zip]
  have h := (claim_C9_pickSegment_spec (some ⟨[⟨50, 0⟩], none⟩) (some ⟨0, 0⟩)
    (some ⟨100, 80⟩) 20 ⟨0, 0⟩ 1 50 10).2 ⟨[⟨50, 0⟩], none⟩
    (PolyInfo.mk ⟨0, 0⟩ ⟨100, 80⟩ .H [⟨100, 0⟩] [⟨0, 0⟩, ⟨100, 0⟩, ⟨100, 80⟩]) 0 .H rfl hpp hpick
  exact ⟨hpick, h.1⟩
